import Mathlib

/-!
Verification development for the stagehand DOM-grounding and
action-orchestration engine.  The TypeScript sources are shallowly embedded:
pure functions become Lean functions, the browser / model-client effects are
passed in explicitly as mock states, JavaScript strings are processed over
`List Char`, and machine integers are `Nat`/`Int`.

Conventions used throughout:
* a JavaScript value that may be `undefined`/`null` is an `Option`;
* a JavaScript string field whose absence is tested by truthiness is a plain
  `String` with `""` standing for absent, mirroring the falsy test `!s`;
* thrown exceptions are `Except String`;
* `Date.now()` is a monotone `Nat` clock threaded through a mock world.
-/

namespace Stagehand

/-! ## JavaScript-style character and string helpers -/

/-- ASCII lower-case letter test, as used by the JS regex character class
`[a-z]`. -/
def isLowerAZ (c : Char) : Bool := 'a' ≤ c && c ≤ 'z'

/-- ASCII upper-case letter test, `[A-Z]`. -/
def isUpperAZ (c : Char) : Bool := 'A' ≤ c && c ≤ 'Z'

/-- ASCII letter, `[A-Za-z]`. -/
def isAlphaAZ (c : Char) : Bool := isLowerAZ c || isUpperAZ c

/-- ASCII digit, `[0-9]`. -/
def isDigit09 (c : Char) : Bool := '0' ≤ c && c ≤ '9'

/-- Alphanumeric, `[A-Za-z0-9]`. -/
def isAlnum (c : Char) : Bool := isAlphaAZ c || isDigit09 c

/-- Lower-case hex digit, `[0-9a-f]`. -/
def isHexLower (c : Char) : Bool := isDigit09 c || ('a' ≤ c && c ≤ 'f')

/-- JavaScript whitespace for `trim` / `\s` (the ASCII part that can occur in
the inputs we model). -/
def isJsWs (c : Char) : Bool :=
  c = ' ' || c = '\t' || c = '\n' || c = '\r' || c = '\x0b' || c = '\x0c'

/-- Does list `p` occur as a prefix of `l`? (`String.prototype.startsWith`). -/
def listIsPrefix : List Char → List Char → Bool
  | [], _ => true
  | _ :: _, [] => false
  | p :: ps, c :: cs => p = c && listIsPrefix ps cs

/-- Does `p` occur as a contiguous sublist of `l`? (`String.prototype.includes`
with a non-empty pattern; for `p = []` it is `true`, as in JS). -/
def listContains (p : List Char) : List Char → Bool
  | [] => listIsPrefix p []
  | c :: cs => listIsPrefix p (c :: cs) || listContains p cs

/-- Split on a single separator character, keeping empty fields — the
behaviour of `String.prototype.split` with a one-character separator. -/
def splitOnChar (sep : Char) : List Char → List (List Char)
  | [] => [[]]
  | c :: cs =>
    let rest := splitOnChar sep cs
    if c = sep then [] :: rest
    else
      match rest with
      | [] => [[c]]
      | r :: rs => (c :: r) :: rs

/-- Split on runs of whitespace (`split(/\s+/)`).  A leading whitespace run
produces a leading empty field, as in JS; interior runs produce no empty
fields. -/
def splitWsRuns (l : List Char) : List (List Char) :=
  let groups := (splitOnChar ' ' (l.map (fun c => if isJsWs c then ' ' else c)))
  match groups with
  | [] => []
  | g :: gs => g :: gs.filter (fun x => x ≠ [])

/-- `String.prototype.trim`. -/
def jsTrimList (l : List Char) : List Char :=
  ((l.dropWhile isJsWs).reverse.dropWhile isJsWs).reverse

/-- JS `toUpperCase` restricted to ASCII (the placeholder keys we model). -/
def jsToUpperChar (c : Char) : Char :=
  if isLowerAZ c then Char.ofNat (c.toNat - 32) else c

def jsToUpper (s : String) : String := ⟨s.data.map jsToUpperChar⟩

def jsStartsWith (s p : String) : Bool := listIsPrefix p.data s.data

def jsIncludes (s p : String) : Bool := listContains p.data s.data

def jsIncludesChar (s : String) (c : Char) : Bool := listContains [c] s.data

def jsTrim (s : String) : String := ⟨jsTrimList s.data⟩

/-- `String.prototype.slice(0, n)` / `substring(0, n)`. -/
def jsTake (s : String) (n : Nat) : String := ⟨s.data.take n⟩

/-! ## A small JSON value model (for `JSON.parse` of tool-call arguments and
for untyped model-response payloads) -/

inductive Json where
  | null
  | bool (b : Bool)
  | num (lexeme : String)
  | str (s : String)
  | arr (elems : List Json)
  | obj (fields : List (String × Json))

/-- Property lookup `j.k` on a JSON value: only objects yield fields, anything
else gives `undefined` (`none`).  (Array index properties are not modelled;
no claim touches them.) -/
def Json.lookup : Json → String → Option Json
  | .obj fields, k => (fields.find? (fun f => f.1 = k)).map (·.2)
  | _, _ => none

/-- Is the value a JS object in the `typeof x === "object"` sense (excluding
`null`, which is tested separately via truthiness in the sources)? -/
def Json.typeofObject : Json → Bool
  | .obj _ => true
  | .arr _ => true
  | .null => true
  | _ => false

/-- JS truthiness of a JSON value.  A numeric literal is falsy exactly when
its mantissa has no non-zero digit (`0`, `-0`, `0.00`, `0e9`, …). -/
def Json.truthy : Json → Bool
  | .null => false
  | .bool b => b
  | .str s => s ≠ ""
  | .num lex =>
    (lex.data.takeWhile (fun c => c ≠ 'e' && c ≠ 'E')).any (fun c => isDigit09 c && c ≠ '0')
  | .arr _ => true
  | .obj _ => true

/-! ### A `JSON.parse` model (fuel-based recursive descent).

Deviations from the JS builtin, none reachable from the claims: `\uXXXX`
escapes that denote surrogate halves decode to NUL (Lean `Char` holds scalar
values only). -/

def hexVal (c : Char) : Option Nat :=
  let n := c.toNat
  if 48 ≤ n && n ≤ 57 then some (n - 48)
  else if 97 ≤ n && n ≤ 102 then some (n - 87)
  else if 65 ≤ n && n ≤ 70 then some (n - 55)
  else none

/-- Decode the body of a JSON string literal, returning the decoded characters
and the input remaining after the closing quote. -/
def parseJsonStringRest : List Char → Option (List Char × List Char)
  | [] => none
  | '"' :: rest => some ([], rest)
  | '\\' :: esc :: rest =>
    match esc with
    | '"' => (parseJsonStringRest rest).map (fun r => ('"' :: r.1, r.2))
    | '\\' => (parseJsonStringRest rest).map (fun r => ('\\' :: r.1, r.2))
    | '/' => (parseJsonStringRest rest).map (fun r => ('/' :: r.1, r.2))
    | 'b' => (parseJsonStringRest rest).map (fun r => ('\x08' :: r.1, r.2))
    | 'f' => (parseJsonStringRest rest).map (fun r => ('\x0c' :: r.1, r.2))
    | 'n' => (parseJsonStringRest rest).map (fun r => ('\n' :: r.1, r.2))
    | 'r' => (parseJsonStringRest rest).map (fun r => ('\r' :: r.1, r.2))
    | 't' => (parseJsonStringRest rest).map (fun r => ('\t' :: r.1, r.2))
    | 'u' =>
      match rest with
      | h1 :: h2 :: h3 :: h4 :: rest2 =>
        match hexVal h1, hexVal h2, hexVal h3, hexVal h4 with
        | some a, some b, some c, some d =>
          (parseJsonStringRest rest2).map
            (fun r => (Char.ofNat (((a * 16 + b) * 16 + c) * 16 + d) :: r.1, r.2))
        | _, _, _, _ => none
      | _ => none
    | _ => none
  | c :: rest =>
    if c.toNat < 32 then none
    else (parseJsonStringRest rest).map (fun r => (c :: r.1, r.2))

/-- Lex a JSON number starting at the head of the input; returns the lexeme
and the rest.  Follows the JSON grammar (no leading zeros, optional fraction
and exponent). -/
def lexJsonNumber (l : List Char) : Option (List Char × List Char) :=
  let afterSign : List Char × List Char :=
    match l with
    | '-' :: rest => (['-'], rest)
    | _ => ([], l)
  let sign := afterSign.1
  let body := afterSign.2
  let intPart : Option (List Char × List Char) :=
    match body with
    | '0' :: rest => some (['0'], rest)
    | c :: rest =>
      if isDigit09 c && c ≠ '0' then
        some (c :: rest.takeWhile isDigit09, rest.dropWhile isDigit09)
      else none
    | [] => none
  match intPart with
  | none => none
  | some (ip, rest1) =>
    let fracPart : Option (List Char × List Char) :=
      match rest1 with
      | '.' :: d :: rest2 =>
        if isDigit09 d then
          some ('.' :: d :: rest2.takeWhile isDigit09, rest2.dropWhile isDigit09)
        else none
      | _ => some ([], rest1)
    match fracPart with
    | none => none
    | some (fp, rest2) =>
      let expPart : Option (List Char × List Char) :=
        match rest2 with
        | e :: rest3 =>
          if e = 'e' || e = 'E' then
            let signedRest :=
              match rest3 with
              | s :: rest4 => if s = '+' || s = '-' then ([s], rest4) else ([], rest3)
              | [] => ([], rest3)
            match signedRest.2 with
            | d :: _ =>
              if isDigit09 d then
                some (e :: signedRest.1 ++ signedRest.2.takeWhile isDigit09,
                      signedRest.2.dropWhile isDigit09)
              else none
            | [] => none
          else some ([], rest2)
        | [] => some ([], rest2)
      match expPart with
      | none => none
      | some (ep, rest3) => some (sign ++ ip ++ fp ++ ep, rest3)

def skipJsonWs (l : List Char) : List Char :=
  l.dropWhile (fun c => c = ' ' || c = '\t' || c = '\n' || c = '\r')

/-- Strip a literal keyword (`null` / `true` / `false`) from the input. -/
def stripKeyword (kw l : List Char) : Option (List Char) :=
  if listIsPrefix kw l then some (l.drop kw.length) else none

mutual

/-- Parse one JSON value (fuel-bounded). -/
def parseJsonValue : Nat → List Char → Option (Json × List Char)
  | 0, _ => none
  | fuel + 1, l =>
    let l2 := skipJsonWs l
    match stripKeyword "null".data l2 with
    | some rest => some (.null, rest)
    | none =>
    match stripKeyword "true".data l2 with
    | some rest => some (.bool true, rest)
    | none =>
    match stripKeyword "false".data l2 with
    | some rest => some (.bool false, rest)
    | none =>
    match l2 with
    | '"' :: rest =>
      (parseJsonStringRest rest).map (fun r => (.str ⟨r.1⟩, r.2))
    | '[' :: rest =>
      (match skipJsonWs rest with
       | ']' :: rest2 => some (.arr [], rest2)
       | _ =>
         (parseJsonElems fuel rest).map (fun r => (.arr r.1, r.2)))
    | '\x7b' :: rest =>
      (match skipJsonWs rest with
       | '\x7d' :: rest2 => some (.obj [], rest2)
       | _ =>
         (parseJsonFields fuel rest).map (fun r => (.obj r.1, r.2)))
    | l3 =>
      (lexJsonNumber l3).map (fun r => (.num ⟨r.1⟩, r.2))

/-- Parse a non-empty comma-separated list of array elements up to `]`. -/
def parseJsonElems : Nat → List Char → Option (List Json × List Char)
  | 0, _ => none
  | fuel + 1, l =>
    match parseJsonValue fuel l with
    | none => none
    | some (v, rest) =>
      match skipJsonWs rest with
      | ',' :: rest2 =>
        (parseJsonElems fuel rest2).map (fun r => (v :: r.1, r.2))
      | ']' :: rest2 => some ([v], rest2)
      | _ => none

/-- Parse a non-empty comma-separated list of object members up to the
closing brace. -/
def parseJsonFields : Nat → List Char → Option (List (String × Json) × List Char)
  | 0, _ => none
  | fuel + 1, l =>
    match skipJsonWs l with
    | '"' :: rest =>
      match parseJsonStringRest rest with
      | none => none
      | some (key, rest1) =>
        match skipJsonWs rest1 with
        | ':' :: rest2 =>
          match parseJsonValue fuel rest2 with
          | none => none
          | some (v, rest3) =>
            match skipJsonWs rest3 with
            | ',' :: rest4 =>
              (parseJsonFields fuel rest4).map (fun r => ((⟨key⟩, v) :: r.1, r.2))
            | '\x7d' :: rest4 => some ([(⟨key⟩, v)], rest4)
            | _ => none
        | _ => none
    | _ => none

end

/-- `JSON.parse`: the whole input must be consumed (up to trailing
whitespace). -/
def jsJsonParse (s : String) : Option Json :=
  match parseJsonValue (s.data.length + 1) s.data with
  | some (v, rest) => if skipJsonWs rest = [] then some v else none
  | none => none

/-! ## Model-orchestration pipeline (inference.ts)

The LLM client is an external collaborator; a call is mocked as consuming the
head of a queue of prepared responses and advancing a `Nat` clock by the
call's latency, which is exactly what the pair of `Date.now()` readings
around each `createChatCompletion` observes. -/

/-- Token usage as reported by the client (`usage` may be absent). -/
structure LLMUsage where
  prompt_tokens : Nat
  completion_tokens : Nat
  total_tokens : Nat
deriving DecidableEq

/-- One entry of `message.tool_calls`. -/
structure ToolCallFunction where
  name : String
  arguments : String

structure ToolCall where
  function : ToolCallFunction

structure ChoiceMessage where
  tool_calls : Option (List ToolCall)

structure Choice where
  message : ChoiceMessage

/-- The raw response shape used by `act` (`choices[0].message.tool_calls`). -/
structure LLMResponse where
  usage : Option LLMUsage
  choices : List Choice

/-- The optional chain `rawResponse.choices?.[0]?.message?.tool_calls`. -/
def LLMResponse.firstToolCalls (r : LLMResponse) : Option (List ToolCall) :=
  r.choices.head?.bind (fun c => c.message.tool_calls)

/-- `fillInVariables` from inference.ts: replaces the placeholder
`<|KEY|>` of each variable by its value via `String.prototype.replace` with a
string pattern.  The record is its `Object.entries` list (insertion order). -/
def placeholderOf (key : String) : String :=
  "<|" ++ jsToUpper key ++ "|>"

/-- ECMAScript `GetSubstitution` for a string replacement with a string
search pattern (no capture groups): `$$` gives a literal dollar, `$&` the
matched pattern, a backtick-dollar the text before the match, a quote-dollar
the text after, anything else is literal. -/
def getSubstitution (matched pre suf : List Char) : List Char → List Char
  | [] => []
  | '$' :: '$' :: rest => '$' :: getSubstitution matched pre suf rest
  | '$' :: '&' :: rest => matched ++ getSubstitution matched pre suf rest
  | '$' :: '\x60' :: rest => pre ++ getSubstitution matched pre suf rest
  | '$' :: '\x27' :: rest => suf ++ getSubstitution matched pre suf rest
  | c :: rest => c :: getSubstitution matched pre suf rest

/-- Split the subject at the first occurrence of the (non-empty, in our uses)
pattern: `some (pre, suf)` with `subject = pre ++ pat ++ suf`. -/
def splitFirst (pat : List Char) : List Char → Option (List Char × List Char)
  | [] => if pat = [] then some ([], []) else none
  | c :: cs =>
    if listIsPrefix pat (c :: cs) then some ([], (c :: cs).drop pat.length)
    else (splitFirst pat cs).map (fun r => (c :: r.1, r.2))

/-- `String.prototype.replace` with a string pattern: replace the first
occurrence only, applying `GetSubstitution` to the replacement string. -/
def jsReplaceFirst (subject pat repl : String) : String :=
  match splitFirst pat.data subject.data with
  | none => subject
  | some (pre, suf) => ⟨pre ++ getSubstitution pat.data pre suf repl.data ++ suf⟩

/-- inference.ts `fillInVariables`; `varEntries` is `Object.entries(variables)`
in insertion order (`variables` itself is unusable as a Lean binder name). -/
def fillInVariables (text : String) (varEntries : List (String × String)) : String :=
  varEntries.foldl
    (fun processedText kv => jsReplaceFirst processedText (placeholderOf kv.1) kv.2)
    text

/-- A mocked `createChatCompletion` outcome: the typed/parsed payload (for
schema calls), the optional usage, and the wall-clock latency of the call. -/
structure MockCall where
  data : Json
  usage : Option LLMUsage
  elapsedMs : Nat

/-- Mock client + clock state. -/
structure World where
  pending : List MockCall
  now : Nat

/-- One schema-constrained client call: consumes the next prepared response
and advances the clock by its latency.  An exhausted mock queue is the mock's
own failure, not a behaviour of the embedded code. -/
def callModel (w : World) : Except String (Json × Option LLMUsage × World) :=
  match w.pending with
  | [] => .error "mock client exhausted"
  | c :: rest => .ok (c.data, c.usage, ⟨rest, w.now + c.elapsedMs⟩)

/-- Result shape of `verifyActCompletion`.  The `completed` field carries the
raw JSON value the code puts there (`false` on the defensive paths, otherwise
`verificationData.completed`). -/
structure VerifyActCompletionResult where
  completed : Json
  prompt_tokens : Nat
  completion_tokens : Nat
  inference_time_ms : Nat

/-- inference.ts `verifyActCompletion`: one schema call, then the two
defensive guards on the payload (`!data || typeof data !== "object"`, then
`data.completed === undefined`), each returning `completed: false` instead of
throwing.  File logging is excluded instrumentation. -/
def verifyActCompletion (w : World) : Except String VerifyActCompletionResult :=
  let start := w.now
  match callModel w with
  | .error e => .error e
  | .ok (verificationData, verificationUsage, w1) =>
    let inferenceTimeMs := w1.now - start
    let pt := (verificationUsage.map (·.prompt_tokens)).getD 0
    let ct := (verificationUsage.map (·.completion_tokens)).getD 0
    if ¬ verificationData.truthy || ¬ verificationData.typeofObject then
      .ok { completed := .bool false, prompt_tokens := pt,
            completion_tokens := ct, inference_time_ms := inferenceTimeMs }
    else
      match verificationData.lookup "completed" with
      | none =>
        .ok { completed := .bool false, prompt_tokens := pt,
              completion_tokens := ct, inference_time_ms := inferenceTimeMs }
      | some c =>
        .ok { completed := c, prompt_tokens := pt,
              completion_tokens := ct, inference_time_ms := inferenceTimeMs }

/-- inference.ts `act`, with the mock client passed as the queue of raw
responses (tool-calling, not schema mode; the latency/usage bookkeeping feeds
only logging and the metrics callback, which are excluded).  The recursion
consumes one queued response per attempt; `JSON.parse` failure is the thrown
exception of the source (`.error`). -/
def act : List LLMResponse → Nat → Except String (Option Json)
  | [], _ => .error "mock client exhausted"
  | rawResponse :: rest, retries =>
    match rawResponse.firstToolCalls with
    | some (tc :: _) =>
      if tc.function.name = "skipSection" then .ok none
      else
        match jsJsonParse tc.function.arguments with
        | some j => .ok (some j)
        | none => .error "JSON.parse failed"
    | _ =>
      if retries ≥ 2 then .ok none
      else act rest (retries + 1)

/-- Result shape of `extract`: the refined payload spread together with the
metadata object and the additive accounting fields. -/
structure ExtractResult where
  data : Json
  metadata_completed : Option Json
  metadata_progress : Option Json
  prompt_tokens : Nat
  completion_tokens : Nat
  inference_time_ms : Nat

/-- JS destructuring `const { completed, progress } = d` throws only for
`null`/`undefined`; on any other value absent fields are `undefined`. -/
def jsDestructureMeta (d : Json) : Except String (Option Json × Option Json) :=
  match d with
  | .null => .error "cannot destructure null"
  | _ => .ok (d.lookup "completed", d.lookup "progress")

/-- inference.ts `extract`: three staged schema calls (extract, refine,
metadata) and additive token/latency accounting.  Prompt construction and
file logging are excluded collaborators; each stage's `Date.now()` pair is
the clock before/after its call. -/
def extract (w : World) : Except String ExtractResult :=
  let extractStartTime := w.now
  match callModel w with
  | .error e => .error e
  | .ok (_extractedData, extractUsage, w1) =>
    let extractEndTime := w1.now
    let refineStartTime := w1.now
    match callModel w1 with
    | .error e => .error e
    | .ok (refinedResponseData, refinedResponseUsage, w2) =>
      let refineEndTime := w2.now
      let metadataStartTime := w2.now
      match callModel w2 with
      | .error e => .error e
      | .ok (metadataData, metadataResponseUsage, w3) =>
        let metadataEndTime := w3.now
        match jsDestructureMeta metadataData with
        | .error e => .error e
        | .ok (metadataResponseCompleted, metadataResponseProgress) =>
          let totalPromptTokens :=
            ((extractUsage.map (·.prompt_tokens)).getD 0) +
            ((refinedResponseUsage.map (·.prompt_tokens)).getD 0) +
            ((metadataResponseUsage.map (·.prompt_tokens)).getD 0)
          let totalCompletionTokens :=
            ((extractUsage.map (·.completion_tokens)).getD 0) +
            ((refinedResponseUsage.map (·.completion_tokens)).getD 0) +
            ((metadataResponseUsage.map (·.completion_tokens)).getD 0)
          let totalInferenceTimeMs :=
            extractEndTime - extractStartTime + (refineEndTime - refineStartTime) +
            (metadataEndTime - metadataStartTime)
          .ok { data := refinedResponseData,
                metadata_completed := metadataResponseCompleted,
                metadata_progress := metadataResponseProgress,
                prompt_tokens := totalPromptTokens,
                completion_tokens := totalCompletionTokens,
                inference_time_ms := totalInferenceTimeMs }

/-! ## Accessibility tree builder (a11y/utils.ts)

Flat CDP nodes come in as `AXFlatNode` (string fields use `""` for an
absent/undefined value, matching the sources' truthiness tests; `parentId = ""`
means no parent).  The hierarchical output is the inductive `ATree`, whose
`children` field is `none` when the JS object never had a `children` property
created and `some` once children were pushed. -/

/-- Digits accumulator for `parseInt`. -/
def digitsToNat (base : Nat) (isDig : Char → Bool) (dval : Char → Nat) (l : List Char) : Nat :=
  (l.takeWhile isDig).foldl (fun acc c => acc * base + dval c) 0

def decDigitVal (c : Char) : Nat := c.toNat - '0'.toNat

def hexDigitVal (c : Char) : Nat :=
  let n := c.toNat
  if n ≤ 57 then n - 48 else if 97 ≤ n then n - 87 else n - 55

def isHexDigitAny (c : Char) : Bool :=
  isDigit09 c || ('a' ≤ c && c ≤ 'f') || ('A' ≤ c && c ≤ 'F')

/-- JS `parseInt(s, 10)`: skip leading whitespace, optional sign, then as many
decimal digits as possible; `none` is `NaN`. -/
def jsParseInt10 (s : String) : Option Int :=
  let l := s.data.dropWhile isJsWs
  let (sign, body) : Int × List Char :=
    match l with
    | '-' :: rest => (-1, rest)
    | '+' :: rest => (1, rest)
    | _ => (1, l)
  match body with
  | c :: _ =>
    if isDigit09 c then some (sign * (digitsToNat 10 isDigit09 decDigitVal body : Nat))
    else none
  | [] => none

/-- JS `parseInt(s)` with no radix argument: as `parseInt(s, 10)` except that a
`0x`/`0X` prefix switches to hexadecimal. -/
def jsParseIntAuto (s : String) : Option Int :=
  let l := s.data.dropWhile isJsWs
  let (sign, body) : Int × List Char :=
    match l with
    | '-' :: rest => (-1, rest)
    | '+' :: rest => (1, rest)
    | _ => (1, l)
  match body with
  | '0' :: x :: rest =>
    if x = 'x' || x = 'X' then
      match rest with
      | c :: _ =>
        if isHexDigitAny c then
          some (sign * (digitsToNat 16 isHexDigitAny hexDigitVal rest : Nat))
        else none
      | [] => none
    else some (sign * (digitsToNat 10 isDigit09 decDigitVal body : Nat))
  | c :: _ =>
    if isDigit09 c then some (sign * (digitsToNat 10 isDigit09 decDigitVal body : Nat))
    else none
  | [] => none

/-- A flat accessibility node as consumed by `buildHierarchicalTree`. -/
structure AXFlatNode where
  nodeId : String
  role : String
  name : String := ""
  description : String := ""
  value : String := ""
  backendDOMNodeId : Option Int := none
  parentId : String := ""
  childIds : List String := []
  xpath : String := ""

/-- A hierarchical accessibility node (the cleaned-node objects that live in
the builder's `nodeMap` and in the output tree). -/
inductive ATree where
  | node (nodeId role name description value : String)
         (backendDOMNodeId : Option Int) (xpath : String)
         (children : Option (List ATree))

def ATree.nodeId : ATree → String
  | .node i _ _ _ _ _ _ _ => i

def ATree.role : ATree → String
  | .node _ r _ _ _ _ _ _ => r

def ATree.name : ATree → String
  | .node _ _ n _ _ _ _ _ => n

def ATree.children : ATree → Option (List ATree)
  | .node _ _ _ _ _ _ _ c => c

/-- The negative-id test of `cleanStructuralNodes`:
`node.nodeId && parseInt(node.nodeId) < 0`. -/
def negIdCheck (nodeId : String) : Bool :=
  nodeId ≠ "" &&
    (match jsParseIntAuto nodeId with
     | some v => v < 0
     | none => false)

mutual

/-- a11y/utils.ts `cleanStructuralNodes`: drops negative-id nodes, collapses
single-child `generic`/`none` nodes, keeps multi-child ones, and for
non-generic nodes returns the rebuilt node when some children survive and the
*original node object* (original children included) when none do. -/
def cleanStructuralNodes : ATree → Option ATree
  | .node nid role nm d v b x none =>
    if negIdCheck nid then none
    else if role = "generic" || role = "none" then none
    else some (.node nid role nm d v b x none)
  | .node nid role nm d v b x (some cs) =>
    if negIdCheck nid then none
    else
      let cleanedChildren := cleanChildrenList cs
      if role = "generic" || role = "none" then
        match cleanedChildren with
        | [c] => some c
        | _ :: _ :: _ => some (.node nid role nm d v b x (some cleanedChildren))
        | [] => none
      else
        if cleanedChildren.length > 0 then
          some (.node nid role nm d v b x (some cleanedChildren))
        else some (.node nid role nm d v b x (some cs))

/-- `node.children.map(cleanStructuralNodes).filter(Boolean)`. -/
def cleanChildrenList : List ATree → List ATree
  | [] => []
  | c :: cs =>
    match cleanStructuralNodes c with
    | some c2 => c2 :: cleanChildrenList cs
    | none => cleanChildrenList cs

end

/-- The first-pass keep test of `buildHierarchicalTree` (nodes that are
named, have child ids, or have an interactive role survive). -/
def keepInFirstPass (n : AXFlatNode) : Bool :=
  let dropNegative : Bool :=
    match jsParseInt10 n.nodeId with
    | some v => decide (v < 0)
    | none => false
  if dropNegative then false
  else
    let hasChildren := n.childIds ≠ []
    let hasValidName := n.name ≠ "" && jsTrim n.name ≠ ""
    let isInteractive :=
      n.role ≠ "none" && n.role ≠ "generic" && n.role ≠ "InlineTextBox"
    hasValidName || hasChildren || isInteractive

/-- The clean node object stored into `nodeMap` for a kept flat node: fields
are included only under the sources' truthiness/undefined guards. -/
def mapEntryOf (n : AXFlatNode) : ATree :=
  .node n.nodeId n.role
    (if n.name ≠ "" && jsTrim n.name ≠ "" then n.name else "")
    (if n.description ≠ "" then n.description else "")
    (if n.value ≠ "" then n.value else "")
    n.backendDOMNodeId
    (if n.xpath ≠ "" then n.xpath else "")
    none

/-- `nodeMap.has` after the first pass. -/
def nodeMapHas (nodes : List AXFlatNode) (id : String) : Bool :=
  nodes.any (fun n => keepInFirstPass n && n.nodeId = id)

/-- `nodeMap.get` after the first pass: `Map.set` overwrites, so the last
kept flat node with this id wins. -/
def nodeMapGet (nodes : List AXFlatNode) (id : String) : Option ATree :=
  ((nodes.filter (fun n => keepInFirstPass n && n.nodeId = id)).getLast?).map mapEntryOf

/-- The ids pushed (in input order) into the children array of the map entry
keyed `pid` by the second pass; the push happens for a flat node with a truthy
`parentId` when both ends are in the map. -/
def childIdsPushed (nodes : List AXFlatNode) (pid : String) : List String :=
  (nodes.filter (fun n =>
    n.parentId ≠ "" && nodeMapHas nodes n.nodeId && n.parentId = pid &&
      nodeMapHas nodes n.parentId)).map (·.nodeId)

/-- Materialise the (mutated, object-graph) map entry for `id` as a tree.
Fuel bounds the depth; for the acyclic graphs reachable from roots,
`nodes.length` fuel is exact (a cyclic object graph makes the original
recursion diverge, which no claim exercises). -/
def materializeNode (nodes : List AXFlatNode) : Nat → String → Option ATree
  | 0, _ => none
  | fuel + 1, id =>
    match nodeMapGet nodes id with
    | none => none
    | some (.node nid role nm d v b x _) =>
      let pushed := childIdsPushed nodes id
      let kids := pushed.filterMap (materializeNode nodes fuel)
      some (.node nid role nm d v b x (if pushed = [] then none else some kids))

mutual

/-- a11y/utils.ts `formatSimplifiedTree`. -/
def formatSimplifiedTree (level : Nat) : ATree → String
  | .node nid role nm _ _ _ _ children =>
    let indent : String := ⟨List.replicate (2 * level) ' '⟩
    let line := indent ++ "[" ++ nid ++ "] " ++ role ++
      (if nm ≠ "" then ": " ++ nm else "") ++ "\n"
    match children with
    | some (c :: cs) => line ++ formatSimplifiedForest (level + 1) (c :: cs)
    | _ => line

def formatSimplifiedForest (level : Nat) : List ATree → String
  | [] => ""
  | c :: cs => formatSimplifiedTree level c ++ formatSimplifiedForest level cs

end

structure TreeResult where
  tree : List ATree
  simplified : String

/-- a11y/utils.ts `buildHierarchicalTree`: first pass filters and copies nodes
into `nodeMap`, the second pass links children by `parentId`, the final pass
takes parentless kept nodes as roots, cleans each subtree, and renders the
simplified text. -/
def buildHierarchicalTree (nodes : List AXFlatNode) : TreeResult :=
  let fuel := nodes.length + 1
  let finalTree :=
    ((nodes.filter (fun n => n.parentId = "" && nodeMapHas nodes n.nodeId)).filterMap
      (fun n => materializeNode nodes fuel n.nodeId)).filterMap cleanStructuralNodes
  { tree := finalTree,
    simplified := String.intercalate "\n" (finalTree.map (formatSimplifiedTree 0)) }

mutual

/-- Does any node of the subtree have role `generic`/`none` and zero children
(absent or empty list)?  This is the checker for the spec invariant. -/
def hasGenericZeroChild : ATree → Bool
  | .node _ role _ _ _ _ _ children =>
    let zero := match children with
      | none => true
      | some [] => true
      | some (_ :: _) => false
    ((role = "generic" || role = "none") && zero) ||
      (match children with
       | some cs => forestHasGenericZeroChild cs
       | none => false)

def forestHasGenericZeroChild : List ATree → Bool
  | [] => false
  | c :: cs => hasGenericZeroChild c || forestHasGenericZeroChild cs

end

mutual

/-- Does any node of the subtree have a nodeId that parses to a negative
integer? -/
def hasNegativeId : ATree → Bool
  | .node nid _ _ _ _ _ _ children =>
    (match jsParseInt10 nid with
     | some v => decide (v < 0)
     | none => false) ||
      (match children with
       | some cs => forestHasNegativeId cs
       | none => false)

def forestHasNegativeId : List ATree → Bool
  | [] => false
  | c :: cs => hasNegativeId c || forestHasNegativeId cs

end

/-! ## DOM model for the selector synthesizer (agentHandler.ts)

A document is modelled as the `body` element's subtree: `DNode.elem` carries
the tag (stored lower-case: the sources only ever compare
`tagName.toLowerCase()`, and HTML tag matching is case-insensitive), the
attribute list and the child list (element and text nodes interleaved).
An element is identified by its path: the list of indices into the
successive `children` lists ( `[]` is `document.body` itself).
`document.elementFromPoint(x, y)` is the external hit-test collaborator; the
claims quantify over "the element at the point", which is the `target` path
handed to the embedded function. -/

inductive DNode where
  | elem (tag : String) (attrs : List (String × String)) (children : List DNode)
  | text (s : String)

abbrev DPath := List Nat

def DNode.isElem : DNode → Bool
  | .elem _ _ _ => true
  | .text _ => false

/-- `getAttribute` (first attribute with the name; `null` when absent). -/
def getAttrOf (n : DNode) (name : String) : Option String :=
  match n with
  | .elem _ attrs _ => (attrs.find? (fun a => a.1 = name)).map (·.2)
  | .text _ => none

/-- `element.id` (the empty string when the attribute is absent). -/
def idOf (n : DNode) : String := (getAttrOf n "id").getD ""

/-- `element.className` for an HTML element: the raw `class` attribute. -/
def classNameOf (n : DNode) : String := (getAttrOf n "class").getD ""

def tagOf : DNode → String
  | .elem t _ _ => t
  | .text _ => ""

def childrenOf : DNode → List DNode
  | .elem _ _ cs => cs
  | .text _ => []

/-- The element's DOM class list: the `class` attribute split on whitespace
runs, empty entries dropped. -/
def classListOf (n : DNode) : List String :=
  ((splitWsRuns (classNameOf n).data).filter (fun g => g ≠ [])).map (fun g => ⟨g⟩)

mutual

/-- `element.textContent`: concatenated text of all descendants. -/
def textContentList : DNode → List Char
  | .text s => s.data
  | .elem _ _ cs => textContentForest cs

def textContentForest : List DNode → List Char
  | [] => []
  | c :: cs => textContentList c ++ textContentForest cs

end

/-- The strings of the element's direct text-node children (the node-set
`text()` of XPath). -/
def directTexts (n : DNode) : List String :=
  (childrenOf n).filterMap (fun c =>
    match c with
    | .text s => some s
    | .elem _ _ _ => none)

def getNode : DNode → DPath → Option DNode
  | n, [] => some n
  | .elem _ _ cs, i :: p =>
    match cs.get? i with
    | some c => getNode c p
    | none => none
  | .text _, _ :: _ => none

/-- Is `p` the path of an element node of `doc`? -/
def isElemPath (doc : DNode) (p : DPath) : Bool :=
  match getNode doc p with
  | some (.elem _ _ _) => true
  | _ => false

def tagAtPath (doc : DNode) (p : DPath) : String :=
  match getNode doc p with
  | some n => tagOf n
  | none => ""

mutual

/-- All element paths of the subtree, in document (pre)order; the auxiliary
function enumerates a child list starting at index `base`. -/
def elemPaths : DNode → List DPath
  | .text _ => []
  | .elem _ _ cs => [] :: elemPathsAux cs 0

def elemPathsAux : List DNode → Nat → List DPath
  | [], _ => []
  | c :: cs, base => (elemPaths c).map (base :: ·) ++ elemPathsAux cs (base + 1)

end

/-- The `:nth-child` position of the node at `p` (1-based among the element
children of its parent); `none` for the root, which has no parent in the
modelled subtree. -/
def nthPosOf (doc : DNode) (p : DPath) : Option Nat :=
  match p.getLast? with
  | none => none
  | some i =>
    match getNode doc p.dropLast with
    | some parent => some (((childrenOf parent).take i).countP (fun c => c.isElem) + 1)
    | none => none

/-- `Array.from(parent.children).length`: the number of element children. -/
def elemChildCount (doc : DNode) (p : DPath) : Nat :=
  match getNode doc p with
  | some n => (childrenOf n).countP (fun c => c.isElem)
  | none => 0

/-- One segment of a child-combinator CSS path: `tag` or
`tag:nth-child(k)`. -/
structure PathSeg where
  tag : String
  nth : Option Nat
deriving DecidableEq

/-- The structural form of every selector string the synthesizer can build.
The strings are produced by JS template literals (with `CSS.escape` where
noted in the sources); the structural constructors carry the unescaped data,
and the query semantics below is the semantics of the rendered string. -/
inductive Sel where
  | idSel (id : String)
  | attrSel (attr val : String)
  | tagAttrSel (tag attr val : String)
  | tagClassesSel (tag : String) (classes : List String)
  | pathSel (segs : List PathSeg)
  | xpathTextEq (tag text : String)
  | xpathTextContains (tag needle : String)
  | idStartsRadixVisible
  | idEqVisible (id : String)
deriving DecidableEq

/-- Is the selector one of the two text-content XPath forms? -/
def Sel.isTextXPath : Sel → Bool
  | .xpathTextEq _ _ => true
  | .xpathTextContains _ _ => true
  | _ => false

def matchesSeg (doc : DNode) (p : DPath) (s : PathSeg) : Bool :=
  match getNode doc p with
  | some (.elem t _ _) =>
    t = s.tag &&
      (match s.nth with
       | none => true
       | some k => nthPosOf doc p = some k)
  | _ => false

/-- Matching of a child-combinator chain, consumed deepest-segment first
(`A > B > C` holds of an element matching `C` whose parent matches `B` whose
parent matches `A`; the outermost segment may sit anywhere). -/
def matchesPathRev (doc : DNode) : DPath → List PathSeg → Bool
  | _, [] => false
  | q, [s] => matchesSeg doc q s
  | q, s :: s2 :: rest =>
    matchesSeg doc q s &&
      (match q with
       | [] => false
       | _ :: _ => matchesPathRev doc q.dropLast (s2 :: rest))

/-- Does the element at `p` match the selector?  The two `:visible` forms
produced by `stabiliseIdSelector` are non-standard CSS (dead code in the
sources: that function is only ever applied to tag/positional paths); they
match nothing here. -/
def matchesSel (doc : DNode) (p : DPath) : Sel → Bool
  | .idSel i =>
    match getNode doc p with
    | some n => n.isElem && idOf n = i
    | none => false
  | .attrSel a v =>
    match getNode doc p with
    | some n => getAttrOf n a = some v
    | none => false
  | .tagAttrSel t a v =>
    match getNode doc p with
    | some n => tagOf n = t && getAttrOf n a = some v
    | none => false
  | .tagClassesSel t cls =>
    match getNode doc p with
    | some n => tagOf n = t && cls.all (fun c => (classListOf n).contains c)
    | none => false
  | .pathSel segs => matchesPathRev doc p segs.reverse
  | .xpathTextEq t s =>
    match getNode doc p with
    | some n => tagOf n = t && (directTexts n).any (fun d => d = s)
    | none => false
  | .xpathTextContains t s =>
    match getNode doc p with
    | some n =>
      tagOf n = t && listContains s.data (((directTexts n).head?.getD "").data)
    | none => false
  | .idStartsRadixVisible => false
  | .idEqVisible _ => false

/-- `document.querySelectorAll` / `document.evaluate(..., ORDERED_NODE_SNAPSHOT)`
over the modelled document: the element paths matching the selector, in
document order. -/
def resolve (doc : DNode) (sel : Sel) : List DPath :=
  (elemPaths doc).filter (fun p => matchesSel doc p sel)

/-- agentHandler.ts `isSelectorUnique`:
`els.length === 1 && els[0] === element`. -/
def isSelectorUnique (doc : DNode) (target : DPath) (sel : Sel) : Bool :=
  resolve doc sel = [target]

/-! ## The selector synthesizer `generateSelector` (agentHandler.ts) -/

/-- Regex `^[A-Za-z]+-[0-9a-f]{6,}$`. -/
def isLettersDashHex6 (s : String) : Bool :=
  match splitOnChar '-' s.data with
  | [p0, p1] => p0 ≠ [] && p0.all isAlphaAZ && p1.length ≥ 6 && p1.all isHexLower
  | _ => false

/-- agentHandler.ts `isLikelyDynamicId`: ids that should never be used
verbatim. -/
def isLikelyDynamicId (id : String) : Bool :=
  jsIncludesChar id ':' || jsStartsWith id "radix-" || isLettersDashHex6 id

/-- Regex `^[a-z]+(-[a-z0-9]+){2,}$`. -/
def isLowerDashGroups2 (s : String) : Bool :=
  match splitOnChar '-' s.data with
  | p0 :: p1 :: p2 :: rest =>
    p0 ≠ [] && p0.all isLowerAZ &&
      ((p1 :: p2 :: rest).all (fun g => g ≠ [] && g.all (fun c => isLowerAZ c || isDigit09 c)))
  | _ => false

/-- Regex `^[a-z]+-[A-Za-z0-9]{4,}$`. -/
def isLowerDashAlnum4 (s : String) : Bool :=
  match splitOnChar '-' s.data with
  | [p0, p1] => p0 ≠ [] && p0.all isLowerAZ && p1.length ≥ 4 && p1.all isAlnum
  | _ => false

/-- Does `css-` followed by an alphanumeric character occur anywhere?
(regex `/css-[A-Za-z0-9]+/`, unanchored). -/
def hasCssHashAt (l : List Char) : Bool :=
  match l with
  | 'c' :: 's' :: 's' :: '-' :: c :: _ => isAlnum c
  | _ => false

def containsCssHash : List Char → Bool
  | [] => false
  | c :: rest => hasCssHashAt (c :: rest) || containsCssHash rest

/-- agentHandler.ts `isLikelyDynamicClass`: variant/hashed class names to
reject. -/
def isLikelyDynamicClass (cls : String) : Bool :=
  jsIncludesChar cls ':' ||
  (cls.data ≠ [] && cls.data.all (fun c => isLowerAZ c || isDigit09 c)) ||
  isLowerDashGroups2 cls ||
  isLowerDashAlnum4 cls ||
  containsCssHash cls.data ||
  jsStartsWith cls "ng-" || jsStartsWith cls "vue-" || jsStartsWith cls "jsx-"

/-- agentHandler.ts `stabiliseIdSelector`: rewrites `#…` selectors whose id
is radix-generated or contains a colon; other selector shapes pass through.
(The structural `idSel` carries the unescaped id, so the source's
un-escaping of `\\:` is already accounted for.) -/
def stabiliseIdSelector : Sel → Sel
  | .idSel i =>
    if jsStartsWith i "radix-" then .idStartsRadixVisible
    else if jsIncludesChar i ':' then .idEqVisible i
    else .idSel i
  | s => s

def testAttrs : List String :=
  ["data-testid", "data-test", "data-cy", "data-automation-id", "data-qa",
   "data-test-id"]

def ariaAttrs : List String :=
  ["aria-label", "aria-labelledby", "aria-describedby", "aria-controls", "role"]

def formAttrs : List String := ["name", "placeholder", "for"]

def textXPathTags : List String :=
  ["button", "a", "h1", "h2", "h3", "h4", "h5", "h6", "label", "li", "span",
   "p", "div"]

/-- Tier 1: the id selector, skipped for dynamic ids. -/
def idTier (doc : DNode) (target : DPath) (el : DNode) : Option Sel :=
  if idOf el ≠ "" && ¬ isLikelyDynamicId (idOf el) then
    if isSelectorUnique doc target (Sel.idSel (idOf el)) then
      some (Sel.idSel (idOf el))
    else none
  else none

/-- Tiers 2–4 share this shape: walk an attribute list, build a selector from
the first truthy value, accept it only if unique. -/
def attrListTier (doc : DNode) (target : DPath) (el : DNode)
    (mk : String → String → Sel) (attrs : List String) : Option Sel :=
  attrs.findSome? (fun attr =>
    match getAttrOf el attr with
    | some val =>
      if val ≠ "" then
        if isSelectorUnique doc target (mk attr val) then some (mk attr val)
        else none
      else none
    | none => none)

/-- The element's split class list after the dynamic-class filter
(`classes`/`stable` locals of the source). -/
def stableClassesOf (el : DNode) : List String :=
  (((splitWsRuns (classNameOf el).data).filter (fun g => g ≠ [])).map
    (fun g => (⟨g⟩ : String))).filter (fun c => ¬ isLikelyDynamicClass c)

/-- Tier 5: up to three classes surviving the dynamic-class filter, tried as
`tag.c1.c2.c3` then per single class. -/
def classTier (doc : DNode) (target : DPath) (el : DNode) : Option Sel :=
  if classNameOf el ≠ "" then
    if stableClassesOf el ≠ [] then
      if isSelectorUnique doc target
          (Sel.tagClassesSel (tagOf el) ((stableClassesOf el).take 3)) then
        some (Sel.tagClassesSel (tagOf el) ((stableClassesOf el).take 3))
      else
        ((stableClassesOf el).take 3).findSome? (fun cls =>
          if isSelectorUnique doc target (Sel.tagClassesSel (tagOf el) [cls]) then
            some (Sel.tagClassesSel (tagOf el) [cls])
          else none)
    else none
  else none

/-- The trimmed `textContent` of the target (`text` local of tier 6). -/
def textOf (el : DNode) : String := jsTrim ⟨textContentList el⟩

/-- Tier 6: the text-content XPath tier.  Uniqueness is checked with
`snapshotLength === 1` only — the snapshot's element is *not* compared with
the target.  A double quote in the text survives the JS `replace(/"/g,'\\"')`
as a backslash escape, which XPath 1.0 string literals do not support: the
built expression is malformed and `document.evaluate` throws (`.error`). -/
def textXPathTier (doc : DNode) (el : DNode) : Except Unit (Option Sel) :=
  if textOf el ≠ "" && (textOf el).length < 50 &&
      textXPathTags.contains (tagOf el) then
    if jsIncludesChar (textOf el) '"' then .error ()
    else if (resolve doc (Sel.xpathTextEq (tagOf el) (textOf el))).length = 1 then
      .ok (some (Sel.xpathTextEq (tagOf el) (textOf el)))
    else if (resolve doc
        (Sel.xpathTextContains (tagOf el) (jsTake (textOf el) 20))).length = 1 then
      .ok (some (Sel.xpathTextContains (tagOf el) (jsTake (textOf el) 20)))
    else .ok none
  else .ok none

/-- The head mutation `path[0] = tag:nth-child(idx)` of tier 7. -/
def bumpHeadNth (doc : DNode) (cur : DPath) (segs : List PathSeg) : List PathSeg :=
  match segs, nthPosOf doc cur with
  | s :: rest, some k => { s with nth := some k } :: rest
  | sgs, _ => sgs

/-- Tier 7: the best-effort css path.  Walks from the target towards `body`,
extending the joined child-combinator path with the parent's tag each round
and adding an `:nth-child` index to the current head when the node has
element siblings (the mutated head persists for later rounds); each candidate
is accepted only if unique.  The walk is structural recursion on the
*reversed* path (`cur.parentElement` = drop the deepest index); `cur = []`
is `document.body`, where the source's
`while (cur !== document.body && cur.parentElement)` loop stops with no
result. -/
def cssPathLoopRev (doc : DNode) (target : DPath) :
    List Nat → List PathSeg → Option Sel
  | [], _ => none
  | i :: revp, segs =>
    if isSelectorUnique doc target (Sel.pathSel segs) then some (Sel.pathSel segs)
    else if elemChildCount doc revp.reverse > 1 &&
        isSelectorUnique doc target
          (Sel.pathSel (bumpHeadNth doc ((i :: revp).reverse) segs)) then
      some (Sel.pathSel (bumpHeadNth doc ((i :: revp).reverse) segs))
    else
      cssPathLoopRev doc target revp
        ({ tag := tagAtPath doc revp.reverse, nth := none } ::
          (if elemChildCount doc revp.reverse > 1 then
            bumpHeadNth doc ((i :: revp).reverse) segs
          else segs))

def cssPathLoop (doc : DNode) (target : DPath) (cur : DPath)
    (segs : List PathSeg) : Option Sel :=
  cssPathLoopRev doc target cur.reverse segs

/-- The `nth-child` segments of the guaranteed path: one per ancestor below
`body`, collected bottom-up in the source loop (structural recursion on the
reversed path; the resulting list is top-down, as the source's `unshift`
builds it). -/
def guaranteedSegsRev (doc : DNode) : List Nat → List PathSeg
  | [] => []
  | i :: revp =>
    guaranteedSegsRev doc revp ++
      [{ tag := tagAtPath doc ((i :: revp).reverse),
         nth := some ((nthPosOf doc ((i :: revp).reverse)).getD 0) }]

def guaranteedSegs (doc : DNode) (p : DPath) : List PathSeg :=
  guaranteedSegsRev doc p.reverse

/-- Tier 8: the guaranteed full path `body > … > tag:nth-child(k)`, passed
through `stabiliseIdSelector` (an identity here: the argument never starts
with `#`). -/
def guaranteedPathTier (doc : DNode) (target : DPath) : Sel :=
  stabiliseIdSelector
    (Sel.pathSel ({ tag := "body", nth := none } :: guaranteedSegs doc target))

/-- Tiers 1–5 in source order: first tier producing a unique selector wins
(each `return` of the source closure). -/
def cssTiersOf (doc : DNode) (target : DPath) (el : DNode) : Option Sel :=
  match idTier doc target el with
  | some s => some s
  | none =>
  match attrListTier doc target el (fun a v => Sel.attrSel a v) testAttrs with
  | some s => some s
  | none =>
  match attrListTier doc target el
      (fun a v => Sel.tagAttrSel (tagOf el) a v) ariaAttrs with
  | some s => some s
  | none =>
  match attrListTier doc target el
      (fun a v => Sel.tagAttrSel (tagOf el) a v) formAttrs with
  | some s => some s
  | none => classTier doc target el

/-- The body of the `page.evaluate` closure of
`StagehandAgentHandler.generateSelector`: the tiers in source order;
`.error` is an exception escaping the closure. -/
def generateSelectorEval (doc : DNode) (target : DPath) : Except Unit (Option Sel) :=
  match getNode doc target with
  | some (DNode.elem tag attrs cs) =>
    match cssTiersOf doc target (DNode.elem tag attrs cs) with
    | some s => .ok (some s)
    | none =>
      match textXPathTier doc (DNode.elem tag attrs cs) with
      | .error e => .error e
      | .ok (some s) => .ok (some s)
      | .ok none =>
        match cssPathLoop doc target target
            [{ tag := tagOf (DNode.elem tag attrs cs), nth := none }] with
        | some s => .ok (some s)
        | none => .ok (some (guaranteedPathTier doc target))
  | _ => .ok none

/-- `StagehandAgentHandler.generateSelector`: the evaluate round trip with
the outer `try`/`catch` that turns a thrown error into `null`. -/
def generateSelector (doc : DNode) (target : DPath) : Option Sel :=
  match generateSelectorEval doc target with
  | .ok r => r
  | .error _ => none

/-! ## The focused-element selector `getActiveElementSelector`
(agentHandler.ts).  This closure builds raw template strings from the active
element's attributes (no `CSS.escape`, no uniqueness checks), so it is
embedded as a `String` builder.  `document.activeElement` is the external
collaborator, passed in as an optional path. -/

/-- Regex `/^css-[a-z0-9]+$/`. -/
def activeIsCssModule (l : List Char) : Bool :=
  match l with
  | 'c' :: 's' :: 's' :: '-' :: rest =>
    rest ≠ [] && rest.all (fun c => isLowerAZ c || isDigit09 c)
  | _ => false

/-- Regex `/^(sc|e)-[a-z0-9]+$/`. -/
def activeIsStyledComponent (l : List Char) : Bool :=
  match l with
  | 's' :: 'c' :: '-' :: rest =>
    rest ≠ [] && rest.all (fun c => isLowerAZ c || isDigit09 c)
  | 'e' :: '-' :: rest =>
    rest ≠ [] && rest.all (fun c => isLowerAZ c || isDigit09 c)
  | _ => false

/-- Regex `/^[a-z]+:.*$/` (the `includes(":")` conjunct is implied). -/
def activeIsTailwindJit (l : List Char) : Bool :=
  l.takeWhile isLowerAZ ≠ [] &&
    (match l.dropWhile isLowerAZ with
     | ':' :: _ => true
     | _ => false)

/-- Regex `/^_ng(content|host)-[a-z0-9-]+$/`. -/
def activeIsAngular (l : List Char) : Bool :=
  let tail : Option (List Char) :=
    match l with
    | '_' :: 'n' :: 'g' :: 'c' :: 'o' :: 'n' :: 't' :: 'e' :: 'n' :: 't' :: '-' :: rest =>
      some rest
    | '_' :: 'n' :: 'g' :: 'h' :: 'o' :: 's' :: 't' :: '-' :: rest => some rest
    | _ => none
  match tail with
  | some rest =>
    rest ≠ [] && rest.all (fun c => isLowerAZ c || isDigit09 c || c = '-')
  | none => false

/-- Regex `/^v-[a-z0-9]+$/`. -/
def activeIsVue (l : List Char) : Bool :=
  match l with
  | 'v' :: '-' :: rest =>
    rest ≠ [] && rest.all (fun c => isLowerAZ c || isDigit09 c)
  | _ => false

/-- Does `--` followed by a non-empty all-alphanumeric suffix start here? -/
def ddAt (l : List Char) : Bool :=
  match l with
  | '-' :: '-' :: c :: rest => (c :: rest).all isAlnum
  | _ => false

def ddScan : List Char → Bool
  | [] => false
  | c :: rest => ddAt (c :: rest) || ddScan rest

/-- Regex `/^.+--[a-zA-Z0-9]+$/`. -/
def activeHasDoubleDashSuffix (l : List Char) : Bool :=
  match l with
  | [] => false
  | _ :: rest => ddScan rest

/-- Does `_`/`-` followed by ≥4 lower-hex chars (to the end) start here? -/
def hexSufAt (l : List Char) : Bool :=
  match l with
  | c :: rest =>
    (c = '_' || c = '-') && rest.length ≥ 4 && rest.all isHexLower
  | [] => false

def hexSufScan : List Char → Bool
  | [] => false
  | c :: rest => hexSufAt (c :: rest) || hexSufScan rest

/-- Regex `/^.+[_-][0-9a-f]{4,}$/`. -/
def activeHasHexSuffix (l : List Char) : Bool :=
  match l with
  | [] => false
  | _ :: rest => hexSufScan rest

/-- agentHandler.ts `isDynamicClass` (the focused-element variant). -/
def activeIsDynamicClass (cls : String) : Bool :=
  activeIsCssModule cls.data || activeIsStyledComponent cls.data ||
  activeIsTailwindJit cls.data || activeIsAngular cls.data ||
  activeIsVue cls.data || activeHasDoubleDashSuffix cls.data ||
  activeHasHexSuffix cls.data

/-- Regex `/^Mui[A-Z][a-zA-Z]+-[a-z]+$/`. -/
def muiPattern (l : List Char) : Bool :=
  match l with
  | 'M' :: 'u' :: 'i' :: u :: rest =>
    isUpperAZ u &&
      (match splitOnChar '-' rest with
       | [m, t] => m ≠ [] && m.all isAlphaAZ && t ≠ [] && t.all isLowerAZ
       | _ => false)
  | _ => false

/-- Regex `/^PRE-[a-z]+-?[a-z]*$/` shared by the `ant-` and `chakra-`
patterns, with `pre` the literal prefix word. -/
def prefixDashPattern (pre : List Char) (l : List Char) : Bool :=
  match splitOnChar '-' l with
  | [p0, p1] => p0 = pre && p1 ≠ [] && p1.all isLowerAZ
  | [p0, p1, p2] => p0 = pre && p1 ≠ [] && p1.all isLowerAZ && p2.all isLowerAZ
  | _ => false

/-- Regex `/^(btn|form|nav|card|modal|container|row|col)(-[a-z]+)*$/`. -/
def bootstrapPattern (l : List Char) : Bool :=
  match splitOnChar '-' l with
  | p0 :: rest =>
    ["btn", "form", "nav", "card", "modal", "container", "row", "col"].contains
        (⟨p0⟩ : String) &&
      rest.all (fun g => g ≠ [] && g.all isLowerAZ)
  | [] => false

/-- The `frameworkPatterns` record in its `Object.entries` order. -/
def frameworkPatternList : List (String → Bool) :=
  [fun c => muiPattern c.data,
   fun c => prefixDashPattern "ant".data c.data,
   fun c => prefixDashPattern "chakra".data c.data,
   fun c => bootstrapPattern c.data,
   fun c => jsStartsWith c "rb-" || jsStartsWith c "react-bootstrap-",
   fun c => jsStartsWith c "tw-" || jsStartsWith c "tailwind-"]

def activeSemanticAttributes : List String :=
  ["aria-label", "aria-describedby", "aria-controls", "aria-labelledby",
   "aria-haspopup", "aria-selected", "aria-expanded", "aria-checked", "title",
   "placeholder", "for", "alt", "name"]

/-- Continuation of `getActiveElementSelector` after the `data-testid`
branch (split only to keep the Lean function readable; the JS is one
closure). -/
def getActiveElementSelectorRest (el : DNode) (tag : String) : String :=
  let tryAttr := fun (attr : String) =>
    match getAttrOf el attr with
    | some v => if v ≠ "" then some v else none
    | none => none
  match tryAttr "data-cy" with
  | some v => "[data-cy=\"" ++ v ++ "\"]"
  | none =>
  match tryAttr "data-test" with
  | some v => "[data-test=\"" ++ v ++ "\"]"
  | none =>
  match tryAttr "data-automation-id" with
  | some v => "[data-automation-id=\"" ++ v ++ "\"]"
  | none =>
  if idOf el ≠ "" then "#" ++ idOf el
  else
    match activeSemanticAttributes.findSome?
        (fun attr => (tryAttr attr).map (fun v => (attr, v))) with
    | some (attr, v) =>
      if attr = "name" && ["input", "select", "textarea", "button"].contains tag then
        tag ++ "[name=\"" ++ v ++ "\"]"
      else tag ++ "[" ++ attr ++ "=\"" ++ v ++ "\"]"
    | none =>
      let roleVal := (tryAttr "role").getD ""
      if roleVal ≠ "" &&
          ¬ (["button", "link", "presentation", "none"].contains roleVal) then
        "[role=\"" ++ roleVal ++ "\"]"
      else
        let clsRaw := classNameOf el
        let fromClasses : Option String :=
          if clsRaw ≠ "" && jsTrim clsRaw ≠ "" then
            let classNames := ((splitWsRuns (jsTrim clsRaw).data).filter
              (fun g => g ≠ [])).map (fun g => (⟨g⟩ : String))
            match frameworkPatternList.findSome? (fun pat =>
                match classNames.filter pat with
                | c :: _ => some (tag ++ "[class*=\"" ++ c ++ "\"]")
                | [] => none) with
            | some s => some s
            | none =>
              match classNames.filter (fun c => ¬ activeIsDynamicClass c) with
              | c :: cs =>
                some (tag ++ "." ++ String.intercalate "." (c :: cs))
              | [] => none
          else none
        match fromClasses with
        | some s => s
        | none =>
          let textContent := jsTrim ⟨textContentList el⟩
          let interactiveElements :=
            ["button", "a", "h1", "h2", "h3", "h4", "h5", "h6"]
          if textContent ≠ "" && textContent.length < 50 &&
              interactiveElements.contains tag then
            if textContent.length < 20 then
              "//" ++ tag ++ "[text()=\"" ++ textContent ++ "\"]"
            else
              "//" ++ tag ++ "[contains(text(), \"" ++ jsTake textContent 20 ++ "\")]"
          else tag

/-- The body of the `page.evaluate` closure of
`StagehandAgentHandler.getActiveElementSelector`; `active` is
`document.activeElement` (`none` for null). -/
def getActiveElementSelector (doc : DNode) (active : Option DPath) : String :=
  match active.bind (getNode doc) with
  | none => "body"
  | some el =>
    if active = some [] then "body"
    else
      let tag := tagOf el
      match getAttrOf el "data-testid" with
      | some v =>
        if v ≠ "" then "[data-testid=\"" ++ v ++ "\"]" else
        getActiveElementSelectorRest el tag
      | none => getActiveElementSelectorRest el tag

/-! ## The action executor `executeAction` (agentHandler.ts)

The per-action dispatch drives the browser (mouse, keyboard, navigation),
an external collaborator; what the embedded skeleton keeps is the source's
control flow around it: the before-screenshot runs *outside* the
`try`, the dispatch runs inside `try`/`catch` (a thrown driver error becomes
`{success:false, error}`), the after-screenshot runs in the `finally`, and
`recordAction` is called after the `finally`.  Each effect's outcome is a
mock `Except`. -/

structure ActionExecutionResult where
  success : Bool
  error : Option String := none
deriving DecidableEq

/-- The mocked outcomes of the three effectful phases for one call. -/
structure ExecEnv where
  beforeScreenshot : Except String Unit
  dispatch : Except String ActionExecutionResult
  afterScreenshot : Except String Unit

/-- One entry of `this.recordedActions`, restricted to the fields the claims
observe (`action: action.type` and `success: result.success`; the wall-clock
`timestamp` and the per-type `details`/`selector` payloads are external
data). -/
structure RecordedEntry where
  action : String
  success : Bool
deriving DecidableEq

/-- agentHandler.ts `recordAction` restricted to what the claims observe: a
`screenshot` action returns before pushing (source line `case "screenshot":
return; // Skip recording`); every other action type appends an entry with
the passed result.  (The per-type `details` payloads and the internal
`try`/`catch`, which never rethrows, are faithful to drop: they do not affect
whether an entry lands.) -/
def recordAction (actionType : String) (result : ActionExecutionResult)
    (recordedActions : List RecordedEntry) : List RecordedEntry :=
  if actionType = "screenshot" then recordedActions
  else recordedActions ++ [{ action := actionType, success := result.success }]

/-- The switch outcome merged with the `catch` branch: a thrown dispatch
error is converted to `{ success: false, error: message }`. -/
def dispatchResult (env : ExecEnv) : ActionExecutionResult :=
  match env.dispatch with
  | .ok r => r
  | .error e => { success := false, error := some e }

/-- agentHandler.ts `executeAction`: returns the result together with the
recorded-actions list after the call.  A failing before-screenshot throws
before the `try`; a failing after-screenshot throws out of the `finally`; in
both cases the error propagates and `recordAction` never runs. -/
def executeAction (env : ExecEnv) (actionType : String)
    (recordedActions : List RecordedEntry) :
    Except String (ActionExecutionResult × List RecordedEntry) :=
  match env.beforeScreenshot with
  | .error e => .error e
  | .ok _ =>
    let result := dispatchResult env
    match env.afterScreenshot with
    | .error e => .error e
    | .ok _ => .ok (result, recordAction actionType result recordedActions)

/-! ## Derived predicates and concrete example inputs used by the theorems -/

/-- "No tool calls in the response": the optional chain gives `undefined` or
an empty array (`toolCalls && toolCalls.length > 0` is false). -/
def noToolCalls (r : LLMResponse) : Prop :=
  r.firstToolCalls = none ∨ r.firstToolCalls = some []

/-- Well-formedness of the modelled document: the root is the `body` element
and no other element of the subtree is tagged `body` (an HTML parser
guarantees a unique `body`). -/
def wellFormedBody (doc : DNode) : Bool :=
  (match doc with
   | .elem t _ _ => t = "body"
   | .text _ => false) &&
    (elemPaths doc).all (fun p => p = [] || ¬ (tagAtPath doc p = "body"))

/-- Example: a target `div` whose text comes from a nested `span`, next to a
sibling `div` with the same direct text — the text-XPath tier resolves
uniquely to the *sibling*. -/
def exC1doc : DNode :=
  .elem "body" []
    [.elem "div" [] [.elem "span" [] [.text "Hi"]],
     .elem "div" [] [.text "Hi"]]

/-- Example: an element carrying both a unique non-dynamic id and a unique
`data-testid`. -/
def exC3doc : DNode :=
  .elem "body" []
    [.elem "button" [("id", "save"), ("data-testid", "save-btn")] []]

/-- Example: a focused element with a radix-style dynamic id and no test
attributes. -/
def exC7doc : DNode :=
  .elem "body" [] [.elem "input" [("id", "radix-:r3:")] []]

/-- Example flat accessibility nodes: a kept `button` root whose only linked
child is a `generic` node with no surviving children (its `childIds` point
nowhere). -/
def exC2nodes : List AXFlatNode :=
  [{ nodeId := "1", role := "button" },
   { nodeId := "2", role := "generic", parentId := "1", childIds := ["99"] }]

/-- Example flat accessibility nodes: a `generic` root with a single `button`
child whose own children are a removable `generic` node and a kept
`button`. -/
def exC9nodes : List AXFlatNode :=
  [{ nodeId := "1", role := "generic", childIds := ["2"] },
   { nodeId := "2", role := "button", name := "C", parentId := "1",
     childIds := ["3", "4"] },
   { nodeId := "3", role := "generic", parentId := "2", childIds := ["99"] },
   { nodeId := "4", role := "button", name := "D", parentId := "2" }]

/-- Example mock responses for `act`: no tool calls at all. -/
def exEmptyResponse : LLMResponse :=
  { usage := none, choices := [{ message := { tool_calls := some [] } }] }

/-- Example mock response whose first tool call is a real tool. -/
def exToolResponse : LLMResponse :=
  ⟨none, [⟨⟨some [⟨⟨"doAction", "[1,2]"⟩⟩]⟩⟩]⟩

/-- Example mock response whose first tool call is the skip sentinel. -/
def exSkipResponse : LLMResponse :=
  ⟨none, [⟨⟨some [⟨⟨"skipSection", "ignored"⟩⟩]⟩⟩]⟩

/-! ## Theorems -/

/-- C4: `act` returns the parsed arguments of the third call's first tool
call when the first two calls produce no tool calls; returns `null` when all
three produce none (retries capped at 2); and returns `null` immediately —
without a further client call — when the first tool call is the
`skipSection` sentinel. -/
theorem act_retry_contract :
    (∀ (r1 r2 r3 : LLMResponse) (tc : ToolCall) (tcs : List ToolCall) (j : Json),
        noToolCalls r1 → noToolCalls r2 →
        r3.firstToolCalls = some (tc :: tcs) →
        tc.function.name ≠ "skipSection" →
        jsJsonParse tc.function.arguments = some j →
        act [r1, r2, r3] 0 = .ok (some j)) ∧
    (∀ r1 r2 r3, noToolCalls r1 → noToolCalls r2 → noToolCalls r3 →
        act [r1, r2, r3] 0 = .ok none) ∧
    (∀ (r : LLMResponse) (rest : List LLMResponse) (tc : ToolCall)
        (tcs : List ToolCall),
        r.firstToolCalls = some (tc :: tcs) → tc.function.name = "skipSection" →
        act (r :: rest) 0 = .ok none) := by
  refine ⟨?_, ?_, ?_⟩
  · intro r1 r2 r3 tc tcs j h1 h2 h3 hname hparse
    rcases h1 with h1 | h1 <;> rcases h2 with h2 | h2 <;>
      simp [act, h1, h2, h3, hname, hparse]
  · intro r1 r2 r3 h1 h2 h3
    rcases h1 with h1 | h1 <;> rcases h2 with h2 | h2 <;>
      rcases h3 with h3 | h3 <;> simp [act, h1, h2, h3]
  · intro r rest tc tcs h hname
    simp [act, h, hname]

/-- C4 witness: two empty-tool-call responses then a real tool call produce
that call's parsed JSON arguments; the skip sentinel with no further queued
response returns `null` at once. -/
theorem act_retry_contract_witness :
    act [exEmptyResponse, exEmptyResponse, exToolResponse] 0 =
      .ok (some (Json.arr [Json.num "1", Json.num "2"])) ∧
    act [exSkipResponse] 0 = .ok none :=
  ⟨act_retry_contract.1 exEmptyResponse exEmptyResponse exToolResponse
      ⟨⟨"doAction", "[1,2]"⟩⟩ [] (Json.arr [Json.num "1", Json.num "2"])
      (Or.inr rfl) (Or.inr rfl) rfl (by decide) rfl,
    act_retry_contract.2.2 exSkipResponse [] ⟨⟨"skipSection", "ignored"⟩⟩ []
      rfl rfl⟩

/-- C5: `extract` adds the three staged calls' usages (absent usage counted
as 0) and elapsed times into `prompt_tokens` / `completion_tokens` /
`inference_time_ms`. -/
theorem extract_aggregates_stage_usage :
    ∀ (d1 d2 d3 : Json) (u1 u2 u3 : Option LLMUsage) (e1 e2 e3 now0 : Nat),
      d3 ≠ Json.null →
      extract ⟨[⟨d1, u1, e1⟩, ⟨d2, u2, e2⟩, ⟨d3, u3, e3⟩], now0⟩ =
        .ok { data := d2,
              metadata_completed := d3.lookup "completed",
              metadata_progress := d3.lookup "progress",
              prompt_tokens :=
                (u1.map (·.prompt_tokens)).getD 0 +
                (u2.map (·.prompt_tokens)).getD 0 +
                (u3.map (·.prompt_tokens)).getD 0,
              completion_tokens :=
                (u1.map (·.completion_tokens)).getD 0 +
                (u2.map (·.completion_tokens)).getD 0 +
                (u3.map (·.completion_tokens)).getD 0,
              inference_time_ms := e1 + e2 + e3 } := by
  intro d1 d2 d3 u1 u2 u3 e1 e2 e3 now0 h3
  cases d3 with
  | null => exact absurd rfl h3
  | bool b =>
    simp only [extract, callModel, jsDestructureMeta]
    refine congrArg Except.ok ?_
    simp
  | num lx =>
    simp only [extract, callModel, jsDestructureMeta]
    refine congrArg Except.ok ?_
    simp
  | str s =>
    simp only [extract, callModel, jsDestructureMeta]
    refine congrArg Except.ok ?_
    simp
  | arr es =>
    simp only [extract, callModel, jsDestructureMeta]
    refine congrArg Except.ok ?_
    simp
  | obj fs =>
    simp only [extract, callModel, jsDestructureMeta]
    refine congrArg Except.ok ?_
    simp

/-- C5 witness: three stages each reporting 10 prompt / 5 completion tokens
and 100 ms yield totals 30 / 15 / 300. -/
theorem extract_aggregates_stage_usage_witness :
    extract ⟨[⟨Json.obj [], some ⟨10, 5, 15⟩, 100⟩,
              ⟨Json.obj [], some ⟨10, 5, 15⟩, 100⟩,
              ⟨Json.obj [("progress", Json.str "p"),
                         ("completed", Json.bool true)],
               some ⟨10, 5, 15⟩, 100⟩], 0⟩ =
      .ok { data := Json.obj [],
            metadata_completed := some (Json.bool true),
            metadata_progress := some (Json.str "p"),
            prompt_tokens := 30, completion_tokens := 15,
            inference_time_ms := 300 } := by
  have h := extract_aggregates_stage_usage (Json.obj []) (Json.obj [])
    (Json.obj [("progress", Json.str "p"), ("completed", Json.bool true)])
    (some ⟨10, 5, 15⟩) (some ⟨10, 5, 15⟩) (some ⟨10, 5, 15⟩) 100 100 100 0
    (fun h => Json.noConfusion h)
  simpa using h

/-- C6: `verifyActCompletion` returns a `completed: false` result — it does
not throw — both for the empty-object payload (missing `completed` field) and
for any payload that is not an object. -/
theorem verifyActCompletion_defaults_false :
    (∀ (u : Option LLMUsage) (e now0 : Nat),
       verifyActCompletion ⟨[⟨Json.obj [], u, e⟩], now0⟩ =
         .ok { completed := Json.bool false,
               prompt_tokens := (u.map (·.prompt_tokens)).getD 0,
               completion_tokens := (u.map (·.completion_tokens)).getD 0,
               inference_time_ms := e }) ∧
    (∀ (d : Json) (u : Option LLMUsage) (e now0 : Nat),
       (∀ fs, d ≠ Json.obj fs) →
       verifyActCompletion ⟨[⟨d, u, e⟩], now0⟩ =
         .ok { completed := Json.bool false,
               prompt_tokens := (u.map (·.prompt_tokens)).getD 0,
               completion_tokens := (u.map (·.completion_tokens)).getD 0,
               inference_time_ms := e }) := by
  constructor
  · intro u e now0
    simp [verifyActCompletion, callModel, Json.truthy, Json.typeofObject,
      Json.lookup]
  · intro d u e now0 hd
    cases d with
    | obj fs => exact absurd rfl (hd fs)
    | null =>
      simp [verifyActCompletion, callModel, Json.truthy, Json.typeofObject]
    | bool b =>
      cases b <;>
        simp [verifyActCompletion, callModel, Json.truthy, Json.typeofObject]
    | num lx =>
      simp [verifyActCompletion, callModel, Json.truthy, Json.typeofObject]
    | str s =>
      by_cases hs : s = "" <;>
        simp [verifyActCompletion, callModel, Json.truthy, Json.typeofObject,
          hs]
    | arr es =>
      simp [verifyActCompletion, callModel, Json.truthy, Json.typeofObject,
        Json.lookup]

/-- C6 witness: the empty-object payload with a concrete usage gives
`completed = false` with the usage echoed. -/
theorem verifyActCompletion_defaults_false_witness :
    verifyActCompletion ⟨[⟨Json.obj [], some ⟨7, 3, 10⟩, 42⟩], 5⟩ =
      .ok { completed := Json.bool false, prompt_tokens := 7,
            completion_tokens := 3, inference_time_ms := 42 } ∧
    (∀ fs, Json.str "oops" ≠ Json.obj fs) ∧
    verifyActCompletion ⟨[⟨Json.str "oops", some ⟨7, 3, 10⟩, 42⟩], 5⟩ =
      .ok { completed := Json.bool false, prompt_tokens := 7,
            completion_tokens := 3, inference_time_ms := 42 } :=
  ⟨verifyActCompletion_defaults_false.1 (some ⟨7, 3, 10⟩) 42 5,
   fun _ h => Json.noConfusion h,
   verifyActCompletion_defaults_false.2 (Json.str "oops") (some ⟨7, 3, 10⟩) 42 5
     (fun _ h => Json.noConfusion h)⟩

/-- C8 counterexample: a failing before-screenshot propagates out of
`executeAction` (the capture is outside the `try`) and the action is neither
dispatched nor recorded; a failing after-screenshot likewise throws from the
`finally` before `recordAction` runs.  This falsifies the claim that
screenshot failures cannot fail the action and that the recorder runs on
every path. -/
theorem executeAction_screenshot_failure_propagates :
    executeAction ⟨.error "screenshot failed", .ok { success := true }, .ok ()⟩
        "click" [] = .error "screenshot failed" ∧
    executeAction ⟨.ok (), .ok { success := true }, .error "after failed"⟩
        "click" [] = .error "after failed" :=
  ⟨rfl, rfl⟩

/-- C8 amended: *when both screenshot captures succeed*, `executeAction`
returns normally and always invokes the recorder with the outcome; a thrown
dispatch error is converted to `success = false` and still recorded (for
non-`screenshot` actions, which the recorder skips by design). -/
theorem executeAction_records_outcome :
    ∀ (env : ExecEnv) (actionType : String) (log : List RecordedEntry),
      env.beforeScreenshot = .ok () → env.afterScreenshot = .ok () →
      executeAction env actionType log =
        .ok (dispatchResult env, recordAction actionType (dispatchResult env) log) ∧
      (∀ e, env.dispatch = .error e →
        (dispatchResult env).success = false ∧
        (actionType ≠ "screenshot" →
          recordAction actionType (dispatchResult env) log =
            log ++ [{ action := actionType, success := false }])) := by
  intro env actionType log hb ha
  obtain ⟨b, d, a⟩ := env
  simp only at hb ha
  subst hb; subst ha
  refine ⟨rfl, ?_⟩
  intro e hd
  simp only at hd
  subst hd
  refine ⟨rfl, ?_⟩
  intro hne
  simp [recordAction, hne, dispatchResult]

/-- C8 witness: a dispatch error with healthy screenshots yields a
`success = false` result and a recorded failure entry. -/
theorem executeAction_records_outcome_witness :
    executeAction ⟨.ok (), .error "boom", .ok ()⟩ "click" [] =
      .ok ({ success := false, error := some "boom" },
           [{ action := "click", success := false }]) :=
  (executeAction_records_outcome ⟨.ok (), .error "boom", .ok ()⟩ "click" []
    rfl rfl).1

theorem listIsPrefix_iff (p l : List Char) :
    listIsPrefix p l = true ↔ ∃ suf, l = p ++ suf := by
  induction p generalizing l with
  | nil => simp [listIsPrefix]
  | cons c cs ih =>
    cases l with
    | nil =>
      simp [listIsPrefix]
    | cons d ds =>
      simp only [listIsPrefix, Bool.and_eq_true, decide_eq_true_eq, ih,
        List.cons_append, List.cons.injEq]
      constructor
      · rintro ⟨rfl, suf, rfl⟩
        exact ⟨suf, rfl, rfl⟩
      · rintro ⟨suf, rfl, rfl⟩
        exact ⟨rfl, suf, rfl⟩

theorem splitFirst_append {pat l pre suf : List Char}
    (h : splitFirst pat l = some (pre, suf)) : l = pre ++ pat ++ suf := by
  induction l generalizing pre with
  | nil =>
    by_cases hp : pat = [] <;> simp [splitFirst, hp] at h
    obtain ⟨rfl, rfl⟩ := h
    simp [hp]
  | cons c cs ih =>
    by_cases hpre : listIsPrefix pat (c :: cs) = true
    · simp only [splitFirst, hpre, if_true, Option.some.injEq, Prod.mk.injEq] at h
      obtain ⟨rfl, rfl⟩ := h
      obtain ⟨suf0, hsuf⟩ := (listIsPrefix_iff pat (c :: cs)).1 hpre
      rw [hsuf, List.nil_append, List.drop_left]
    · simp only [splitFirst, hpre, if_false, Bool.false_eq_true] at h
      cases hrec : splitFirst pat cs with
      | none => rw [hrec] at h; simp at h
      | some r =>
        obtain ⟨p1, s1⟩ := r
        rw [hrec] at h
        simp only [Option.map, Option.some.injEq, Prod.mk.injEq] at h
        obtain ⟨rfl, rfl⟩ := h
        have := ih hrec
        simp [this]

theorem splitFirst_earliest {pat l pre suf : List Char}
    (h : splitFirst pat l = some (pre, suf)) :
    ∀ pre2 suf2, l = pre2 ++ pat ++ suf2 → pre.length ≤ pre2.length := by
  induction l generalizing pre with
  | nil =>
    intro pre2 suf2 hsplit
    by_cases hp : pat = [] <;> simp [splitFirst, hp] at h
    obtain ⟨rfl, rfl⟩ := h
    exact Nat.zero_le _
  | cons c cs ih =>
    intro pre2 suf2 hsplit
    by_cases hpre : listIsPrefix pat (c :: cs) = true
    · simp only [splitFirst, hpre, if_true, Option.some.injEq, Prod.mk.injEq] at h
      obtain ⟨rfl, rfl⟩ := h
      exact Nat.zero_le _
    · simp only [splitFirst, hpre, if_false, Bool.false_eq_true] at h
      cases hrec : splitFirst pat cs with
      | none => rw [hrec] at h; simp at h
      | some r =>
        obtain ⟨p1, s1⟩ := r
        rw [hrec] at h
        simp only [Option.map, Option.some.injEq, Prod.mk.injEq] at h
        obtain ⟨rfl, rfl⟩ := h
        cases pre2 with
        | nil =>
          exfalso
          apply hpre
          refine (listIsPrefix_iff pat (c :: cs)).2 ⟨suf2, ?_⟩
          simpa using hsplit
        | cons c2 cs2 =>
          simp only [List.cons_append, List.cons.injEq] at hsplit
          obtain ⟨rfl, hsplit⟩ := hsplit
          simpa using ih hrec cs2 suf2 hsplit

theorem splitFirst_none_of_not_contains {pat l : List Char}
    (h : listContains pat l = false) : splitFirst pat l = none := by
  induction l with
  | nil =>
    have : listIsPrefix pat [] = false := by simpa [listContains] using h
    have hp : pat ≠ [] := by
      intro hp; rw [hp] at this; simp [listIsPrefix] at this
    simp [splitFirst, hp]
  | cons c cs ih =>
    simp only [listContains, Bool.or_eq_false_iff] at h
    simp [splitFirst, h.1, ih h.2]

/-- C10 counterexample: `String.prototype.replace` applies the ECMAScript
replacement patterns to the replacement string, so the value `"$$"` is
inserted as a single `"$"` — the first occurrence is *not* replaced by the
variable's value verbatim, falsifying the claim as stated. -/
theorem fillInVariables_dollar_counterexample :
    fillInVariables "<|A|>" [("a", "$$")] = "$" ∧
    ("$" : String) ≠ "$$" := by
  constructor
  · rfl
  · decide

/-- C10 amended: `fillInVariables` replaces at most the *first* occurrence of
each placeholder, inserting the value after ECMAScript `GetSubstitution`
processing (which is the value itself whenever it contains no `$` pattern);
the text before the first occurrence and everything after it — including any
later occurrences — is preserved verbatim, and a placeholder that does not
occur leaves the text unchanged (also for whole records none of whose
placeholders occur). -/
theorem fillInVariables_first_occurrence :
    (∀ (text k v : String),
       listContains (placeholderOf k).data text.data = false →
       fillInVariables text [(k, v)] = text) ∧
    (∀ (text k v : String) (pre suf : List Char),
       splitFirst (placeholderOf k).data text.data = some (pre, suf) →
       fillInVariables text [(k, v)] =
         ⟨pre ++ getSubstitution (placeholderOf k).data pre suf v.data ++ suf⟩ ∧
       text.data = pre ++ (placeholderOf k).data ++ suf ∧
       (∀ pre2 suf2, text.data = pre2 ++ (placeholderOf k).data ++ suf2 →
          pre.length ≤ pre2.length)) ∧
    (∀ (text : String) (entries : List (String × String)),
       (∀ kv ∈ entries, listContains (placeholderOf kv.1).data text.data = false) →
       fillInVariables text entries = text) := by
  refine ⟨?_, ?_, ?_⟩
  · intro text k v h
    simp [fillInVariables, jsReplaceFirst, splitFirst_none_of_not_contains h]
  · intro text k v pre suf h
    refine ⟨?_, splitFirst_append h, splitFirst_earliest h⟩
    simp [fillInVariables, jsReplaceFirst, h]
  · intro text entries h
    induction entries with
    | nil => rfl
    | cons kv rest ih =>
      have h1 := h kv (List.mem_cons_self _ _)
      have hstep : jsReplaceFirst text (placeholderOf kv.1) kv.2 = text := by
        simp [jsReplaceFirst, splitFirst_none_of_not_contains h1]
      simpa [fillInVariables, hstep] using
        ih (fun kv2 hm => h kv2 (List.mem_cons_of_mem _ hm))

/-- C10 witness: with two occurrences of `<|K|>`, only the first is replaced
and the suffix containing the second survives verbatim; a record whose
placeholder is absent leaves the text unchanged. -/
theorem fillInVariables_first_occurrence_witness :
    fillInVariables "ab <|K|> cd <|K|>" [("k", "V")] = "ab V cd <|K|>" ∧
    fillInVariables "hello" [("k", "V")] = "hello" := by
  constructor
  · have h := fillInVariables_first_occurrence.2.1 "ab <|K|> cd <|K|>" "k" "V"
      "ab ".data " cd <|K|>".data (by decide)
    exact h.1.trans (by decide)
  · exact fillInVariables_first_occurrence.1 "hello" "k" "V" (by decide)

/-- C2: at the failing input `exC2nodes`, `cleanStructuralNodes` hits the
non-generic/zero-surviving-children branch, which returns the *original*
node object with its unclean children, so the output tree retains a
`generic` node with zero children — contradicting both the claimed
invariant and the function's own doc comment ("Removes generic/none nodes
with no children").  The negative-id half of the invariant does hold here. -/
theorem buildHierarchicalTree_generic_leaf_survives :
    (buildHierarchicalTree exC2nodes).tree =
      [ATree.node "1" "button" "" "" "" none ""
        (some [ATree.node "2" "generic" "" "" "" none "" none])] ∧
    forestHasGenericZeroChild (buildHierarchicalTree exC2nodes).tree = true ∧
    forestHasNegativeId (buildHierarchicalTree exC2nodes).tree = false :=
  ⟨rfl, rfl, rfl⟩

/-- C9 counterexample: the collapse inserts the *cleaned* child, not the raw
one.  In `exC9nodes` the generic root's single child (node `"2"`) has two raw
linked children (`"3"`, `"4"`), but the tree that replaces the root carries
only the surviving child `"4"` — so the child's children are not preserved
unchanged from the raw input. -/
theorem buildHierarchicalTree_collapse_not_raw :
    (buildHierarchicalTree exC9nodes).tree =
      [ATree.node "2" "button" "C" "" "" none ""
        (some [ATree.node "4" "button" "D" "" "" none "" none])] ∧
    childIdsPushed exC9nodes "2" = ["3", "4"] ∧
    (buildHierarchicalTree exC9nodes).tree ≠
      [ATree.node "2" "button" "C" "" "" none ""
        (some [ATree.node "3" "generic" "" "" "" none "" none,
               ATree.node "4" "button" "D" "" "" none "" none])] := by
  refine ⟨rfl, rfl, ?_⟩
  intro h
  rw [show (buildHierarchicalTree exC9nodes).tree =
      [ATree.node "2" "button" "C" "" "" none ""
        (some [ATree.node "4" "button" "D" "" "" none "" none])] from rfl] at h
  simp at h

/-- C9 amended: a `generic`/`none` node (with a non-negative id) whose
children *clean* to exactly one survivor is replaced by that cleaned
survivor; the survivor's role is preserved by the collapse itself, but its
children are the recursively cleaned versions of its raw children. -/
theorem cleanStructuralNodes_collapses_single_child :
    ∀ (nid role nm d v : String) (b : Option Int) (x : String)
      (cs : List ATree) (c : ATree),
      (role = "generic" ∨ role = "none") →
      negIdCheck nid = false →
      cleanChildrenList cs = [c] →
      cleanStructuralNodes (ATree.node nid role nm d v b x (some cs)) = some c := by
  intro nid role nm d v b x cs c hrole hnid hclean
  rcases hrole with rfl | rfl <;>
    simp [cleanStructuralNodes, hnid, hclean]

/-- C9 witness: a generic wrapper around a single `button` child collapses to
that child. -/
theorem cleanStructuralNodes_collapses_single_child_witness :
    cleanStructuralNodes
        (ATree.node "5" "generic" "" "" "" none ""
          (some [ATree.node "6" "button" "Go" "" "" none "" none])) =
      some (ATree.node "6" "button" "Go" "" "" none "" none) :=
  cleanStructuralNodes_collapses_single_child "5" "generic" "" "" "" none ""
    [ATree.node "6" "button" "Go" "" "" none "" none]
    (ATree.node "6" "button" "Go" "" "" none "" none)
    (Or.inl rfl) rfl rfl

theorem exists_of_findSome? {α β : Type} {f : α → Option β} :
    ∀ {l : List α} {b : β}, l.findSome? f = some b → ∃ a, a ∈ l ∧ f a = some b := by
  intro l
  induction l with
  | nil => intro b h; simp at h
  | cons x xs ih =>
    intro b h
    cases hfx : f x with
    | some y =>
      simp only [List.findSome?_cons, hfx] at h
      have hyb : y = b := by simpa using h
      subst hyb
      exact ⟨x, List.mem_cons_self _ _, hfx⟩
    | none =>
      simp only [List.findSome?_cons, hfx] at h
      obtain ⟨a, ha, hfa⟩ := ih h
      exact ⟨a, List.mem_cons_of_mem _ ha, hfa⟩

theorem idTier_some {doc : DNode} {target : DPath} {el : DNode} {s : Sel}
    (h : idTier doc target el = some s) :
    s = Sel.idSel (idOf el) ∧ isLikelyDynamicId (idOf el) = false ∧
      isSelectorUnique doc target s = true := by
  unfold idTier at h
  split at h
  · split at h
    · cases h
      rename_i hc hu
      refine ⟨rfl, ?_, hu⟩
      simp only [Bool.and_eq_true, decide_eq_true_eq] at hc
      simpa using hc.2
    · exact absurd h (by simp)
  · exact absurd h (by simp)

theorem attrListTier_some {doc : DNode} {target : DPath} {el : DNode}
    {mk : String → String → Sel} {attrs : List String} {s : Sel}
    (h : attrListTier doc target el mk attrs = some s) :
    (∃ a v, s = mk a v) ∧ isSelectorUnique doc target s = true := by
  obtain ⟨a, _, hfa⟩ := exists_of_findSome? h
  cases hval : getAttrOf el a with
  | none => rw [hval] at hfa; simp at hfa
  | some v =>
    rw [hval] at hfa
    simp only at hfa
    split at hfa
    · split at hfa
      · cases hfa
        rename_i hu
        exact ⟨⟨a, v, rfl⟩, hu⟩
      · exact absurd hfa (by simp)
    · exact absurd hfa (by simp)

theorem classTier_some {doc : DNode} {target : DPath} {el : DNode} {s : Sel}
    (h : classTier doc target el = some s) :
    (∃ t cls, s = Sel.tagClassesSel t cls) ∧
      isSelectorUnique doc target s = true := by
  unfold classTier at h
  split at h
  · split at h
    · split at h
      · cases h
        rename_i hu
        exact ⟨⟨_, _, rfl⟩, hu⟩
      · obtain ⟨c, _, hfc⟩ := exists_of_findSome? h
        split at hfc
        · cases hfc
          rename_i hu
          exact ⟨⟨_, _, rfl⟩, hu⟩
        · exact absurd hfc (by simp)
    · exact absurd h (by simp)
  · exact absurd h (by simp)

theorem textXPathTier_some {doc : DNode} {el : DNode} {s : Sel}
    (h : textXPathTier doc el = .ok (some s)) :
    s.isTextXPath = true ∧ (resolve doc s).length = 1 := by
  unfold textXPathTier at h
  split at h
  · split at h
    · exact absurd h (by simp)
    · split at h
      · cases h
        rename_i hc
        exact ⟨rfl, hc⟩
      · split at h
        · cases h
          rename_i hc
          exact ⟨rfl, hc⟩
        · exact absurd h (by simp)
  · exact absurd h (by simp)

theorem cssPathLoopRev_some {doc : DNode} {target : DPath} :
    ∀ (revCur : List Nat) (segs : List PathSeg) (s : Sel),
      cssPathLoopRev doc target revCur segs = some s →
      (∃ segs2, s = Sel.pathSel segs2) ∧ isSelectorUnique doc target s = true := by
  intro revCur
  induction revCur with
  | nil => intro segs s h; simp [cssPathLoopRev] at h
  | cons i revp ih =>
    intro segs s h
    rw [cssPathLoopRev] at h
    split at h
    · cases h
      rename_i hu
      exact ⟨⟨_, rfl⟩, hu⟩
    · split at h
      · cases h
        rename_i hu
        simp only [Bool.and_eq_true] at hu
        exact ⟨⟨_, rfl⟩, hu.2⟩
      · exact ih _ s h

theorem cssPathLoop_some {doc : DNode} {target : DPath} {cur : DPath}
    {segs : List PathSeg} {s : Sel}
    (h : cssPathLoop doc target cur segs = some s) :
    (∃ segs2, s = Sel.pathSel segs2) ∧ isSelectorUnique doc target s = true :=
  cssPathLoopRev_some cur.reverse segs s h

theorem generateSelectorEval_cases {doc : DNode} {target : DPath} {s : Sel}
    (h : generateSelectorEval doc target = .ok (some s)) :
    (∃ el, getNode doc target = some el ∧
      (cssTiersOf doc target el = some s ∨
       textXPathTier doc el = .ok (some s) ∨
       cssPathLoop doc target target [{ tag := tagOf el, nth := none }] = some s ∨
       s = guaranteedPathTier doc target)) := by
  unfold generateSelectorEval at h
  split at h
  case h_2 => exact absurd h (by simp)
  case h_1 x tag attrs cs heq =>
    refine ⟨DNode.elem tag attrs cs, heq, ?_⟩
    split at h
    · rename_i s1 h1
      cases h
      exact Or.inl h1
    · rename_i h1
      split at h
      · exact absurd h (by simp)
      · rename_i s2 h2
        cases h
        exact Or.inr (Or.inl h2)
      · rename_i h2
        split at h
        · rename_i s3 h3
          cases h
          exact Or.inr (Or.inr (Or.inl h3))
        · rename_i h3
          cases h
          exact Or.inr (Or.inr (Or.inr rfl))

theorem cssTiersOf_some {doc : DNode} {target : DPath} {el : DNode} {s : Sel}
    (h : cssTiersOf doc target el = some s) :
    isSelectorUnique doc target s = true ∧ s.isTextXPath = false := by
  unfold cssTiersOf at h
  split at h
  · rename_i h1
    cases h
    obtain ⟨hs, _, hu⟩ := idTier_some h1
    exact ⟨hu, by rw [hs]; rfl⟩
  · split at h
    · rename_i h2
      cases h
      obtain ⟨⟨a, v, hs⟩, hu⟩ := attrListTier_some h2
      exact ⟨hu, by rw [hs]; rfl⟩
    · split at h
      · rename_i h3
        cases h
        obtain ⟨⟨a, v, hs⟩, hu⟩ := attrListTier_some h3
        exact ⟨hu, by rw [hs]; rfl⟩
      · split at h
        · rename_i h4
          cases h
          obtain ⟨⟨a, v, hs⟩, hu⟩ := attrListTier_some h4
          exact ⟨hu, by rw [hs]; rfl⟩
        · obtain ⟨⟨t, cls, hs⟩, hu⟩ := classTier_some h
          exact ⟨hu, by rw [hs]; rfl⟩

/-- C3 counterexample: `generateSelector` tries the element-id tier *before*
the explicit-test-attribute tier (the source's tiers are numbered `1) id
selector`, `2) data-* attrs`).  On an element with both a unique non-dynamic
id and a unique `data-testid`, the id selector is returned even though the
test-attribute selector is unique. -/
theorem generateSelector_prefers_id_over_testid :
    generateSelector exC3doc [0] = some (Sel.idSel "save") ∧
    isSelectorUnique exC3doc [0] (Sel.attrSel "data-testid" "save-btn") = true ∧
    Sel.idSel "save" ≠ Sel.attrSel "data-testid" "save-btn" := by
  refine ⟨by decide, by decide, by decide⟩

/-- C3 amended: the id tier runs first: whenever the target's id is
non-empty, non-dynamic and unique, the id selector is returned — regardless
of any test attributes the element carries; the test-attribute tier is
reached only when the id tier fails. -/
theorem generateSelector_id_tier_first :
    ∀ (doc : DNode) (target : DPath) (el : DNode),
      getNode doc target = some el →
      idOf el ≠ "" →
      isLikelyDynamicId (idOf el) = false →
      isSelectorUnique doc target (Sel.idSel (idOf el)) = true →
      generateSelector doc target = some (Sel.idSel (idOf el)) := by
  intro doc target el hget hid hdyn huniq
  cases el with
  | text str =>
    exact absurd (rfl : idOf (DNode.text str) = "") hid
  | elem tag attrs cs =>
    simp [generateSelector, generateSelectorEval, cssTiersOf, idTier, hget,
      hid, hdyn, huniq]

/-- C3 witness: the amended theorem evaluated on the concrete document. -/
theorem generateSelector_id_tier_first_witness :
    generateSelector exC3doc [0] = some (Sel.idSel "save") :=
  generateSelector_id_tier_first exC3doc [0]
    (DNode.elem "button" [("id", "save"), ("data-testid", "save-btn")] [])
    rfl (by decide) (by decide) (by decide)

/-- C7 counterexample: on the focused-element path,
`getActiveElementSelector` has no dynamic-id guard: an active element whose
id is `radix-:r3:` (and which carries no test attributes) yields exactly the
raw selector `#radix-:r3:`.  (The point-based path, by contrast, falls
through to a positional selector here.) -/
theorem getActiveElementSelector_emits_dynamic_id :
    getActiveElementSelector exC7doc (some [0]) = "#radix-:r3:" ∧
    isLikelyDynamicId "radix-:r3:" = true ∧
    generateSelector exC7doc [0] = some (Sel.pathSel [{ tag := "input", nth := none }]) := by
  refine ⟨by decide, by decide, by decide⟩

/-- The guaranteed-path tier never produces an id selector (its
`stabiliseIdSelector` wrapper is the identity on positional paths). -/
theorem guaranteedPathTier_not_idSel (doc : DNode) (target : DPath) (i : String) :
    guaranteedPathTier doc target ≠ Sel.idSel i := by
  intro h
  exact Sel.noConfusion h

/-- `cssTiersOf` yields an id selector only from the id tier, whose guard
rejects dynamic ids. -/
theorem cssTiersOf_idSel {doc : DNode} {target : DPath} {el : DNode} {i : String}
    (h : cssTiersOf doc target el = some (Sel.idSel i)) :
    isLikelyDynamicId i = false := by
  unfold cssTiersOf at h
  split at h
  · rename_i h1
    cases h
    obtain ⟨hs, hdyn, _⟩ := idTier_some h1
    cases hs
    exact hdyn
  · split at h
    · rename_i h2
      cases h
      obtain ⟨⟨a, v, hs⟩, _⟩ := attrListTier_some h2
      exact absurd hs (by intro hs; exact Sel.noConfusion hs)
    · split at h
      · rename_i h3
        cases h
        obtain ⟨⟨a, v, hs⟩, _⟩ := attrListTier_some h3
        exact absurd hs (by intro hs; exact Sel.noConfusion hs)
      · split at h
        · rename_i h4
          cases h
          obtain ⟨⟨a, v, hs⟩, _⟩ := attrListTier_some h4
          exact absurd hs (by intro hs; exact Sel.noConfusion hs)
        · obtain ⟨⟨t, cls, hs⟩, _⟩ := classTier_some h
          exact absurd hs (by intro hs; exact Sel.noConfusion hs)

/-- C7 amended: the *point-based* synthesizer never returns the raw id
selector of a dynamic id (`#radix-:r3:` included): the id tier is guarded by
`isLikelyDynamicId` and no other tier builds an id selector.  The
focused-element path does emit it (see the counterexample). -/
theorem generateSelector_never_dynamic_idSel :
    ∀ (doc : DNode) (target : DPath) (i : String),
      isLikelyDynamicId i = true →
      generateSelector doc target ≠ some (Sel.idSel i) := by
  intro doc target i hdyn hcontra
  unfold generateSelector at hcontra
  cases heval : generateSelectorEval doc target with
  | error e => rw [heval] at hcontra; exact Option.noConfusion hcontra
  | ok r =>
    rw [heval] at hcontra
    cases r with
    | none => exact Option.noConfusion hcontra
    | some s =>
      cases hcontra
      obtain ⟨el, hget, hcase⟩ := generateSelectorEval_cases heval
      rcases hcase with h1 | h2 | h3 | h4
      · rw [cssTiersOf_idSel h1] at hdyn
        exact Bool.noConfusion hdyn
      · obtain ⟨hxp, _⟩ := textXPathTier_some h2
        exact Bool.noConfusion hxp
      · obtain ⟨⟨segs2, hs⟩, _⟩ := cssPathLoop_some h3
        exact Sel.noConfusion hs
      · exact guaranteedPathTier_not_idSel doc target i h4.symm

/-- C7 witness: the amended theorem instantiated at the radix id and the
concrete document. -/
theorem generateSelector_never_dynamic_idSel_witness :
    generateSelector exC7doc [0] ≠ some (Sel.idSel "radix-:r3:") :=
  generateSelector_never_dynamic_idSel exC7doc [0] "radix-:r3:" (by decide)

theorem getNode_append (doc : DNode) (p q : DPath) :
    getNode doc (p ++ q) = (getNode doc p).bind (fun n => getNode n q) := by
  induction p generalizing doc with
  | nil => simp [getNode]
  | cons i p2 ih =>
    cases doc with
    | text s => simp [getNode]
    | elem t a cs =>
      simp only [List.cons_append, getNode]
      cases cs.get? i with
      | none => simp
      | some c => simpa using ih c

theorem isElemPath_parent {doc : DNode} {q : DPath}
    (hq : isElemPath doc q = true) (hne : q ≠ []) :
    isElemPath doc q.dropLast = true := by
  have hsplit : q = q.dropLast ++ [q.getLast hne] := (List.dropLast_append_getLast hne).symm
  unfold isElemPath at hq ⊢
  rw [hsplit, getNode_append] at hq
  cases hpar : getNode doc q.dropLast with
  | none => rw [hpar] at hq; simp at hq
  | some parn =>
    rw [hpar] at hq
    cases parn with
    | text s => simp [getNode] at hq
    | elem t a cs => rfl

theorem mem_elemPathsAux {q : DPath} :
    ∀ (cs : List DNode) (base : Nat),
      q ∈ elemPathsAux cs base ↔
        ∃ j c p2, q = (base + j) :: p2 ∧ cs.get? j = some c ∧ p2 ∈ elemPaths c := by
  intro cs
  induction cs with
  | nil =>
    intro base
    simp [elemPathsAux]
  | cons c cs ih =>
    intro base
    rw [elemPathsAux]
    simp only [List.mem_append, List.mem_map, ih (base + 1)]
    constructor
    · rintro (⟨p2, hp2, hq⟩ | ⟨j, c2, p2, hq, hget, hp2⟩)
      · refine ⟨0, c, p2, ?_, rfl, hp2⟩
        rw [← hq, Nat.add_zero]
      · refine ⟨j + 1, c2, p2, ?_, by simpa using hget, hp2⟩
        rw [hq]
        congr 1
        omega
    · rintro ⟨j, c2, p2, hq, hget, hp2⟩
      cases j with
      | zero =>
        left
        simp only [List.get?_cons_zero, Option.some.injEq] at hget
        subst hget
        refine ⟨p2, hp2, ?_⟩
        rw [hq, Nat.add_zero]
      | succ j2 =>
        right
        refine ⟨j2, c2, p2, ?_, by simpa using hget, hp2⟩
        rw [hq]
        congr 1
        omega

theorem mem_elemPaths : ∀ (q : DPath) (doc : DNode),
    q ∈ elemPaths doc ↔ isElemPath doc q = true := by
  intro q
  induction q with
  | nil =>
    intro doc
    cases doc with
    | text s => simp [elemPaths, isElemPath, getNode]
    | elem t a cs => simp [elemPaths, isElemPath, getNode]
  | cons i p ih =>
    intro doc
    cases doc with
    | text s => simp [elemPaths, isElemPath, getNode]
    | elem t a cs =>
      rw [elemPaths]
      simp only [List.mem_cons, List.cons.injEq, false_and, false_or,
        reduceCtorEq]
      rw [mem_elemPathsAux cs 0]
      unfold isElemPath getNode
      constructor
      · rintro ⟨j, c, p2, hq, hget, hp2⟩
        simp only [Nat.zero_add] at hq
        obtain ⟨rfl, rfl⟩ : i = j ∧ p = p2 := by
          cases hq; exact ⟨rfl, rfl⟩
        rw [hget]
        exact (ih c).mp hp2
      · intro h
        cases hget : cs.get? i with
        | none => rw [hget] at h; simp at h
        | some c =>
          rw [hget] at h
          exact ⟨i, c, p, by simp, hget, (ih c).mpr h⟩

theorem elemPathsAux_nodup :
    ∀ (cs : List DNode) (base : Nat),
      (∀ c ∈ cs, (elemPaths c).Nodup) → (elemPathsAux cs base).Nodup := by
  intro cs
  induction cs with
  | nil =>
    intro base h
    simp [elemPathsAux]
  | cons c cs ih =>
    intro base h
    rw [elemPathsAux]
    refine List.Nodup.append ?_ (ih (base + 1) (fun c2 hc => h c2 (List.mem_cons_of_mem _ hc))) ?_
    · exact (h c (List.mem_cons_self _ _)).map (fun a b hab => by
        simpa using hab)
    · intro x hx1 hx2
      obtain ⟨p2, _, hq⟩ := List.mem_map.mp hx1
      obtain ⟨j, c2, p3, hq2, _, _⟩ := (mem_elemPathsAux _ _).mp hx2
      rw [← hq] at hq2
      simp only [List.cons.injEq] at hq2
      omega

theorem elemPaths_nodup : ∀ (n : Nat) (d : DNode), sizeOf d ≤ n → (elemPaths d).Nodup := by
  intro n
  induction n with
  | zero =>
    intro d hle
    have hpos : 0 < sizeOf d := by
      cases d <;> simp_arith
    omega
  | succ n ih =>
    intro d hle
    cases d with
    | text s => simp [elemPaths]
    | elem t a cs =>
      rw [elemPaths]
      refine List.nodup_cons.mpr ⟨?_, ?_⟩
      · intro hmem
        obtain ⟨j, c2, p2, hq, _, _⟩ := (mem_elemPathsAux _ _).mp hmem
        exact List.noConfusion hq
      · refine elemPathsAux_nodup cs 0 (fun c hc => ih c ?_)
        have h1 : sizeOf c < sizeOf cs := List.sizeOf_lt_of_mem hc
        have h2 : sizeOf (DNode.elem t a cs) = 1 + sizeOf t + sizeOf a + sizeOf cs := by
          simp
        omega

theorem filter_eq_singleton {α : Type} {l : List α} {P : α → Bool} {a : α}
    (hn : l.Nodup) (ha : a ∈ l) (hP : ∀ x ∈ l, P x = true ↔ x = a) :
    l.filter P = [a] := by
  induction l with
  | nil => cases ha
  | cons x xs ih =>
    rw [List.nodup_cons] at hn
    rcases List.mem_cons.mp ha with rfl | ha2
    · have hx : P a = true := (hP a (List.mem_cons_self _ _)).mpr rfl
      have hrest : xs.filter P = [] := by
        rw [List.filter_eq_nil_iff]
        intro b hb hPb
        have : b = a := (hP b (List.mem_cons_of_mem _ hb)).mp hPb
        exact hn.1 (this ▸ hb)
      rw [List.filter_cons]
      simp [hx, hrest]
    · have hx : P x = false := by
        cases hPx : P x with
        | false => rfl
        | true =>
          have : x = a := (hP x (List.mem_cons_self _ _)).mp hPx
          exact absurd (this ▸ ha2) hn.1
      rw [List.filter_cons]
      simp only [hx, Bool.false_eq_true, if_false]
      exact ih hn.2 ha2 (fun b hb => hP b (List.mem_cons_of_mem _ hb))

theorem countP_take_lt {cs : List DNode} {i j : Nat} (hij : i < j)
    {n : DNode} (hget : cs.get? i = some n) (hne : n.isElem = true) :
    (cs.take i).countP (fun c => c.isElem) <
      (cs.take j).countP (fun c => c.isElem) := by
  have hstep : (cs.take (i + 1)).countP (fun c => c.isElem) =
      (cs.take i).countP (fun c => c.isElem) + 1 := by
    rw [List.take_succ]
    simp only [List.countP_append]
    have hgi : cs[i]? = some n := by
      rw [← List.get?_eq_getElem?]
      exact hget
    rw [hgi]
    simp [List.countP_cons, hne]
  have hmono : (cs.take (i + 1)).countP (fun c => c.isElem) ≤
      (cs.take j).countP (fun c => c.isElem) := by
    have hsub : (cs.take (i + 1)).Sublist (cs.take j) := by
      have : cs.take (i + 1) = (cs.take j).take (i + 1) := by
        rw [List.take_take]
        congr 1
        omega
      rw [this]
      exact List.take_sublist _ _
    exact hsub.countP_le _
  omega

/-- Distinct element children of one parent occupy distinct `:nth-child`
positions. -/
theorem nthChildPos_inj {cs : List DNode} {i j : Nat}
    {n m : DNode} (hi : cs.get? i = some n) (hin : n.isElem = true)
    (hj : cs.get? j = some m) (hjm : m.isElem = true)
    (hpos : (cs.take i).countP (fun c => c.isElem) =
      (cs.take j).countP (fun c => c.isElem)) : i = j := by
  rcases Nat.lt_trichotomy i j with h | h | h
  · exact absurd hpos (Nat.ne_of_lt (countP_take_lt h hi hin))
  · exact h
  · exact absurd hpos.symm (Nat.ne_of_lt (countP_take_lt h hj hjm))

theorem nthPosOf_concat {doc : DNode} {par : DPath} {j : Nat}
    {t : String} {a : List (String × String)} {cs : List DNode}
    (hpar : getNode doc par = some (DNode.elem t a cs)) :
    nthPosOf doc (par ++ [j]) =
      some ((cs.take j).countP (fun c => c.isElem) + 1) := by
  unfold nthPosOf
  rw [List.getLast?_concat, List.dropLast_concat, hpar]
  rfl

theorem child_of_elem_parent {doc : DNode} {par : DPath} {j : Nat}
    {t : String} {a : List (String × String)} {cs : List DNode}
    (hpar : getNode doc par = some (DNode.elem t a cs))
    (hq : isElemPath doc (par ++ [j]) = true) :
    ∃ n, cs.get? j = some n ∧ n.isElem = true := by
  unfold isElemPath at hq
  rw [getNode_append, hpar] at hq
  rw [show Option.bind (some (DNode.elem t a cs)) (fun n => getNode n [j]) =
      getNode (DNode.elem t a cs) [j] from rfl] at hq
  cases hget : cs.get? j with
  | none => rw [getNode, hget] at hq; simp at hq
  | some c =>
    rw [getNode, hget] at hq
    cases c with
    | text s2 => simp [getNode] at hq
    | elem t2 a2 cs2 => exact ⟨_, rfl, rfl⟩

theorem parent_is_elem {doc : DNode} {q : DPath}
    (hq : isElemPath doc q = true) (hne : q ≠ []) :
    ∃ t a cs, getNode doc q.dropLast = some (DNode.elem t a cs) := by
  have hpar := isElemPath_parent hq hne
  unfold isElemPath at hpar
  cases hget : getNode doc q.dropLast with
  | none => rw [hget] at hpar; simp at hpar
  | some n =>
    rw [hget] at hpar
    cases n with
    | text s2 => simp at hpar
    | elem t a cs => exact ⟨t, a, cs, rfl⟩

theorem body_seg_matches_iff {doc : DNode} (hwf : wellFormedBody doc = true)
    {q : DPath} (hq : isElemPath doc q = true) :
    (matchesSeg doc q { tag := "body", nth := none } = true ↔ q = []) := by
  unfold wellFormedBody at hwf
  simp only [Bool.and_eq_true, List.all_eq_true] at hwf
  obtain ⟨hroot, hrest⟩ := hwf
  constructor
  · intro hm
    by_contra hne
    have hmem := (mem_elemPaths q doc).mpr hq
    have := hrest q hmem
    simp only [Bool.or_eq_true, decide_eq_true_eq] at this
    rcases this with h | h
    · exact hne h
    · unfold matchesSeg at hm
      cases hget : getNode doc q with
      | none => rw [hget] at hm; simp at hm
      | some n =>
        rw [hget] at hm
        cases n with
        | text s2 => simp at hm
        | elem t a cs =>
          simp only [Bool.and_eq_true, decide_eq_true_eq] at hm
          apply h
          unfold tagAtPath
          rw [hget]
          exact hm.1
  · rintro rfl
    cases hdoc : doc with
    | text s2 => rw [hdoc] at hroot; simp at hroot
    | elem t a cs =>
      rw [hdoc] at hroot
      simp only [decide_eq_true_eq] at hroot
      unfold matchesSeg
      rw [getNode]
      simp [hroot]

theorem matchesSeg_self {doc : DNode} {p : DPath}
    (hp : isElemPath doc p = true) {k : Nat} (hk : nthPosOf doc p = some k) :
    matchesSeg doc p
      { tag := tagAtPath doc p, nth := some ((nthPosOf doc p).getD 0) } = true := by
  unfold matchesSeg tagAtPath
  unfold isElemPath at hp
  cases hget : getNode doc p with
  | none => rw [hget] at hp; simp at hp
  | some n =>
    rw [hget] at hp
    cases n with
    | text s2 => simp at hp
    | elem t a cs =>
      simp [tagOf, hk]

theorem matchesRev_guaranteed {doc : DNode} (hwf : wellFormedBody doc = true) :
    ∀ (revp : List Nat) (q : DPath),
      isElemPath doc revp.reverse = true → isElemPath doc q = true →
      (matchesPathRev doc q
          ((guaranteedSegsRev doc revp).reverse ++
            [{ tag := "body", nth := none }]) = true ↔ q = revp.reverse) := by
  intro revp
  induction revp with
  | nil =>
    intro q hp hq
    simp only [guaranteedSegsRev, List.reverse_nil, List.nil_append]
    rw [matchesPathRev]
    exact (body_seg_matches_iff hwf hq).trans (by simp)
  | cons i revp2 ih =>
    intro q hq0 hq
    have hpdef : (i :: revp2).reverse = revp2.reverse ++ [i] := by simp
    rw [hpdef] at hq0
    have hpar_valid : isElemPath doc revp2.reverse = true := by
      have hpne : revp2.reverse ++ [i] ≠ [] := by simp
      have := isElemPath_parent hq0 hpne
      rwa [List.dropLast_concat] at this
    obtain ⟨tp, ap, csp, hpar⟩ := parent_is_elem hq0 (by simp)
    rw [List.dropLast_concat] at hpar
    obtain ⟨np, hgetp, hnp⟩ := child_of_elem_parent hpar hq0
    have hnthp : nthPosOf doc (revp2.reverse ++ [i]) =
        some ((csp.take i).countP (fun c => c.isElem) + 1) :=
      nthPosOf_concat hpar
    rw [guaranteedSegsRev]
    simp only [List.reverse_append, List.reverse_cons, List.reverse_nil,
      List.nil_append, List.cons_append, List.append_assoc]
    cases htail : (guaranteedSegsRev doc revp2).reverse ++
        [({ tag := "body", nth := none } : PathSeg)] with
    | nil => simp at htail
    | cons s2 rest =>
      rw [matchesPathRev.eq_def]
      constructor
      · intro hm
        simp only [Bool.and_eq_true] at hm
        obtain ⟨hseg, hrec⟩ := hm
        cases q with
        | nil => simp at hrec
        | cons q0 qrest =>
          have hqne : (q0 :: qrest : DPath) ≠ [] := by simp
          have hdrop : matchesPathRev doc (q0 :: qrest).dropLast (s2 :: rest) = true :=
            hrec
          have hqpar : isElemPath doc (q0 :: qrest).dropLast = true :=
            isElemPath_parent hq hqne
          have hihq : (q0 :: qrest).dropLast = revp2.reverse := by
            have hx := ih (q0 :: qrest).dropLast hpar_valid hqpar
            rw [htail] at hx
            exact hx.mp hdrop
          have hqsplit : (q0 :: qrest : DPath) =
              (q0 :: qrest).dropLast ++ [(q0 :: qrest).getLast hqne] :=
            (List.dropLast_append_getLast hqne).symm
          have hq2 : isElemPath doc
              (revp2.reverse ++ [(q0 :: qrest).getLast hqne]) = true := by
            rw [← hihq, ← hqsplit]
            exact hq
          obtain ⟨mq, hgetq, hmq⟩ := child_of_elem_parent hpar hq2
          have hnthq : nthPosOf doc (q0 :: qrest) =
              some ((csp.take ((q0 :: qrest).getLast hqne)).countP
                (fun c => c.isElem) + 1) := by
            have h2 : getNode doc (q0 :: qrest).dropLast =
                some (DNode.elem tp ap csp) := by rw [hihq]; exact hpar
            calc nthPosOf doc (q0 :: qrest)
                = nthPosOf doc ((q0 :: qrest).dropLast ++
                    [(q0 :: qrest).getLast hqne]) := by rw [← hqsplit]
              _ = _ := nthPosOf_concat h2
          unfold matchesSeg at hseg
          cases hgetqn : getNode doc (q0 :: qrest) with
          | none => rw [hgetqn] at hseg; simp at hseg
          | some n =>
            rw [hgetqn] at hseg
            cases n with
            | text s3 => simp at hseg
            | elem tq aq csq =>
              simp only [Bool.and_eq_true, decide_eq_true_eq] at hseg
              have hposeq : (csp.take ((q0 :: qrest).getLast hqne)).countP
                  (fun c => c.isElem) = (csp.take i).countP (fun c => c.isElem) := by
                have hx := hseg.2
                rw [hnthq, hnthp] at hx
                simp only [Option.getD_some, Option.some.injEq] at hx
                omega
              have hlast : (q0 :: qrest).getLast hqne = i :=
                nthChildPos_inj hgetq hmq hgetp hnp hposeq
              rw [← hlast]
              exact hqsplit.trans (by rw [hihq])
      · rintro rfl
        obtain ⟨r0, rrest, hsh⟩ : ∃ r0 rrest,
            revp2.reverse ++ [i] = r0 :: rrest := by
          cases hrr : revp2.reverse ++ [i] with
          | nil => simp at hrr
          | cons a b => exact ⟨a, b, rfl⟩
        rw [hsh]
        simp only [Bool.and_eq_true]
        constructor
        · rw [← hsh]
          exact matchesSeg_self hq0 hnthp
        · have hdl : (r0 :: rrest : DPath).dropLast = revp2.reverse := by
            rw [← hsh, List.dropLast_concat]
          rw [hdl]
          have hx := ih revp2.reverse hpar_valid hpar_valid
          rw [htail] at hx
          exact hx.mpr rfl

theorem isSelectorUnique_eq {doc : DNode} {target : DPath} {sel : Sel}
    (h : isSelectorUnique doc target sel = true) : resolve doc sel = [target] := by
  unfold isSelectorUnique at h
  exact of_decide_eq_true h

theorem resolve_guaranteedPathTier {doc : DNode} {p : DPath}
    (hwf : wellFormedBody doc = true) (hp : isElemPath doc p = true) :
    resolve doc (guaranteedPathTier doc p) = [p] := by
  have hstab : guaranteedPathTier doc p =
      Sel.pathSel ({ tag := "body", nth := none } :: guaranteedSegs doc p) := rfl
  rw [hstab]
  unfold resolve
  apply filter_eq_singleton (elemPaths_nodup (sizeOf doc) doc (Nat.le_refl _))
    ((mem_elemPaths p doc).mpr hp)
  intro q hq
  have hqv : isElemPath doc q = true := (mem_elemPaths q doc).mp hq
  have hkey := matchesRev_guaranteed hwf p.reverse q
    (by rwa [List.reverse_reverse]) hqv
  rw [List.reverse_reverse] at hkey
  have hrev : (({ tag := "body", nth := none } : PathSeg) ::
      guaranteedSegs doc p).reverse =
      (guaranteedSegsRev doc p.reverse).reverse ++
        [{ tag := "body", nth := none }] := by
    rw [List.reverse_cons]
    rfl
  show matchesPathRev doc q
      (({ tag := "body", nth := none } : PathSeg) ::
        guaranteedSegs doc p).reverse = true ↔ q = p
  rw [hrev]
  exact hkey

/-- C1 amended: any selector returned by `generateSelector` on a well-formed
document resolves to exactly one element; for every tier except the
text-content XPath tier that element is the original target (the CSS tiers
check `els[0] === element`, and the guaranteed `nth-child` path pins the
target structurally).  The XPath tier guarantees only the unique-match half
(see the counterexample). -/
theorem generateSelector_resolution :
    ∀ (doc : DNode) (target : DPath) (sel : Sel),
      wellFormedBody doc = true →
      isElemPath doc target = true →
      generateSelector doc target = some sel →
      (resolve doc sel).length = 1 ∧
      (sel.isTextXPath = false → resolve doc sel = [target]) := by
  intro doc target sel hwf hv h
  unfold generateSelector at h
  cases heval : generateSelectorEval doc target with
  | error e => rw [heval] at h; exact Option.noConfusion h
  | ok r =>
    rw [heval] at h
    have hr : r = some sel := h
    subst hr
    obtain ⟨el, hget, hcase⟩ := generateSelectorEval_cases heval
    rcases hcase with h1 | h2 | h3 | h4
    · obtain ⟨hu, _⟩ := cssTiersOf_some h1
      have hres := isSelectorUnique_eq hu
      exact ⟨by rw [hres]; rfl, fun _ => hres⟩
    · obtain ⟨hxp, hlen⟩ := textXPathTier_some h2
      refine ⟨hlen, fun hfalse => ?_⟩
      rw [hxp] at hfalse
      exact Bool.noConfusion hfalse
    · obtain ⟨⟨segs2, hs⟩, hu⟩ := cssPathLoop_some h3
      have hres := isSelectorUnique_eq hu
      exact ⟨by rw [hres]; rfl, fun _ => hres⟩
    · subst h4
      have hres := resolve_guaranteedPathTier hwf hv
      exact ⟨by rw [hres]; rfl, fun _ => hres⟩

/-- C1 witness: on the concrete document with a unique id, the theorem gives
unique resolution to the target. -/
theorem generateSelector_resolution_witness :
    (resolve exC3doc (Sel.idSel "save")).length = 1 ∧
    resolve exC3doc (Sel.idSel "save") = [[0]] := by
  have h := generateSelector_resolution exC3doc [0] (Sel.idSel "save")
    (by decide) (by decide) (by decide)
  exact ⟨h.1, h.2 (by decide)⟩

/-- C1 counterexample: the text-content XPath tier checks only
`snapshotLength === 1`, never that the match is the target.  The target
`div` at `[0]` holds its text in a nested `span`, so
`//div[text()="Hi"]` resolves uniquely — to the *sibling* `div` at `[1]`,
not the target, falsifying the claim for the text-XPath tier. -/
theorem generateSelector_text_xpath_wrong_element :
    generateSelector exC1doc [0] = some (Sel.xpathTextEq "div" "Hi") ∧
    resolve exC1doc (Sel.xpathTextEq "div" "Hi") = [[1]] ∧
    ([1] : DPath) ≠ [0] ∧
    wellFormedBody exC1doc = true ∧
    isElemPath exC1doc [0] = true := by
  refine ⟨by decide, by decide, by decide, by decide, by decide⟩

end Stagehand
